import Mathlib

/-!
# Verification of the `snapshot` statistics aggregator

A shallow embedding of the Go packages `snapshot/internal/helpers` and
`snapshot/internal/snapshot` and of `generateOverview` of `main.go`, followed
by theorems about them.

Modelling conventions
* A Go `string` is a list of runes (`GoString`). `strings.ToLower` maps each
  rune by `unicode.ToLower` (the ASCII fast path, then the lower-case column
  of the library's case table), and "equal ignoring letter case" means equal
  after `ToLower`.
* A Go `map[string]T` is an association list in insertion order; a `nil`
  map is `none` where the code tests for `nil`, and the two exclusion sets
  (only ever looked up) are plain lists of keys.
* A Go `int` is an unbounded `Int`: the counters are repository, star and
  byte counts, and no claim below is about 64-bit wrap-around.
* `float64` percentage shares are exact rationals.
* The remote API is a list of the responses it is going to give, consumed
  one per query, together with the log of the queries received. A query
  made when no response is left is the failed query on which `RunQuery`
  calls `log.Fatalf`: the run ends without a result (`none`).
-/

namespace helpers

/-- A Go string, as its sequence of runes. -/
abbrev GoString := List Char

/-- Go `unicode.IsSpace`: the white space runes that `strings.TrimSpace` removes. -/
def isSpace (c : Char) : Bool :=
  let n := c.toNat
  n = 0x09 || n = 0x0A || n = 0x0B || n = 0x0C || n = 0x0D || n = 0x20 ||
  n = 0x85 || n = 0xA0 || n = 0x1680 || (0x2000 ≤ n && n ≤ 0x200A) ||
  n = 0x2028 || n = 0x2029 || n = 0x202F || n = 0x205F || n = 0x3000

/-- The lower-case column of the Go table `unicode.CaseRanges` (Unicode 15.0.0),
as arithmetic progressions: `(lo, hi, stride, delta)` says that each of the runes
`lo, lo + stride, ..., hi` is lower-cased by adding `delta` to it. Runes in no
progression are their own lower case. -/
def lowerCaseRanges : List (Nat × Nat × Nat × Int) :=
  [
   (0x41, 0x5A, 1, 32), (0xC0, 0xD6, 1, 32), (0xD8, 0xDE, 1, 32), (0x100, 0x12E, 2, 1),
   (0x130, 0x130, 1, -199), (0x132, 0x136, 2, 1), (0x139, 0x147, 2, 1), (0x14A, 0x176, 2, 1),
   (0x178, 0x178, 1, -121), (0x179, 0x17D, 2, 1), (0x181, 0x181, 1, 210),
   (0x182, 0x184, 2, 1), (0x186, 0x186, 1, 206), (0x187, 0x187, 1, 1), (0x189, 0x18A, 1, 205),
   (0x18B, 0x18B, 1, 1), (0x18E, 0x18E, 1, 79), (0x18F, 0x18F, 1, 202),
   (0x190, 0x190, 1, 203), (0x191, 0x191, 1, 1), (0x193, 0x193, 1, 205),
   (0x194, 0x194, 1, 207), (0x196, 0x196, 1, 211), (0x197, 0x197, 1, 209),
   (0x198, 0x198, 1, 1), (0x19C, 0x19C, 1, 211), (0x19D, 0x19D, 1, 213),
   (0x19F, 0x19F, 1, 214), (0x1A0, 0x1A4, 2, 1), (0x1A6, 0x1A6, 1, 218), (0x1A7, 0x1A7, 1, 1),
   (0x1A9, 0x1A9, 1, 218), (0x1AC, 0x1AC, 1, 1), (0x1AE, 0x1AE, 1, 218), (0x1AF, 0x1AF, 1, 1),
   (0x1B1, 0x1B2, 1, 217), (0x1B3, 0x1B5, 2, 1), (0x1B7, 0x1B7, 1, 219), (0x1B8, 0x1B8, 1, 1),
   (0x1BC, 0x1BC, 1, 1), (0x1C4, 0x1C4, 1, 2), (0x1C5, 0x1C5, 1, 1), (0x1C7, 0x1C7, 1, 2),
   (0x1C8, 0x1C8, 1, 1), (0x1CA, 0x1CA, 1, 2), (0x1CB, 0x1DB, 2, 1), (0x1DE, 0x1EE, 2, 1),
   (0x1F1, 0x1F1, 1, 2), (0x1F2, 0x1F4, 2, 1), (0x1F6, 0x1F6, 1, -97), (0x1F7, 0x1F7, 1, -56),
   (0x1F8, 0x21E, 2, 1), (0x220, 0x220, 1, -130), (0x222, 0x232, 2, 1),
   (0x23A, 0x23A, 1, 10795), (0x23B, 0x23B, 1, 1), (0x23D, 0x23D, 1, -163),
   (0x23E, 0x23E, 1, 10792), (0x241, 0x241, 1, 1), (0x243, 0x243, 1, -195),
   (0x244, 0x244, 1, 69), (0x245, 0x245, 1, 71), (0x246, 0x24E, 2, 1), (0x370, 0x372, 2, 1),
   (0x376, 0x376, 1, 1), (0x37F, 0x37F, 1, 116), (0x386, 0x386, 1, 38), (0x388, 0x38A, 1, 37),
   (0x38C, 0x38C, 1, 64), (0x38E, 0x38F, 1, 63), (0x391, 0x3A1, 1, 32), (0x3A3, 0x3AB, 1, 32),
   (0x3CF, 0x3CF, 1, 8), (0x3D8, 0x3EE, 2, 1), (0x3F4, 0x3F4, 1, -60), (0x3F7, 0x3F7, 1, 1),
   (0x3F9, 0x3F9, 1, -7), (0x3FA, 0x3FA, 1, 1), (0x3FD, 0x3FF, 1, -130),
   (0x400, 0x40F, 1, 80), (0x410, 0x42F, 1, 32), (0x460, 0x480, 2, 1), (0x48A, 0x4BE, 2, 1),
   (0x4C0, 0x4C0, 1, 15), (0x4C1, 0x4CD, 2, 1), (0x4D0, 0x52E, 2, 1), (0x531, 0x556, 1, 48),
   (0x10A0, 0x10C5, 1, 7264), (0x10C7, 0x10C7, 1, 7264), (0x10CD, 0x10CD, 1, 7264),
   (0x13A0, 0x13EF, 1, 38864), (0x13F0, 0x13F5, 1, 8), (0x1C90, 0x1CBA, 1, -3008),
   (0x1CBD, 0x1CBF, 1, -3008), (0x1E00, 0x1E94, 2, 1), (0x1E9E, 0x1E9E, 1, -7615),
   (0x1EA0, 0x1EFE, 2, 1), (0x1F08, 0x1F0F, 1, -8), (0x1F18, 0x1F1D, 1, -8),
   (0x1F28, 0x1F2F, 1, -8), (0x1F38, 0x1F3F, 1, -8), (0x1F48, 0x1F4D, 1, -8),
   (0x1F59, 0x1F5F, 2, -8), (0x1F68, 0x1F6F, 1, -8), (0x1F88, 0x1F8F, 1, -8),
   (0x1F98, 0x1F9F, 1, -8), (0x1FA8, 0x1FAF, 1, -8), (0x1FB8, 0x1FB9, 1, -8),
   (0x1FBA, 0x1FBB, 1, -74), (0x1FBC, 0x1FBC, 1, -9), (0x1FC8, 0x1FCB, 1, -86),
   (0x1FCC, 0x1FCC, 1, -9), (0x1FD8, 0x1FD9, 1, -8), (0x1FDA, 0x1FDB, 1, -100),
   (0x1FE8, 0x1FE9, 1, -8), (0x1FEA, 0x1FEB, 1, -112), (0x1FEC, 0x1FEC, 1, -7),
   (0x1FF8, 0x1FF9, 1, -128), (0x1FFA, 0x1FFB, 1, -126), (0x1FFC, 0x1FFC, 1, -9),
   (0x2126, 0x2126, 1, -7517), (0x212A, 0x212A, 1, -8383), (0x212B, 0x212B, 1, -8262),
   (0x2132, 0x2132, 1, 28), (0x2160, 0x216F, 1, 16), (0x2183, 0x2183, 1, 1),
   (0x24B6, 0x24CF, 1, 26), (0x2C00, 0x2C2F, 1, 48), (0x2C60, 0x2C60, 1, 1),
   (0x2C62, 0x2C62, 1, -10743), (0x2C63, 0x2C63, 1, -3814), (0x2C64, 0x2C64, 1, -10727),
   (0x2C67, 0x2C6B, 2, 1), (0x2C6D, 0x2C6D, 1, -10780), (0x2C6E, 0x2C6E, 1, -10749),
   (0x2C6F, 0x2C6F, 1, -10783), (0x2C70, 0x2C70, 1, -10782), (0x2C72, 0x2C72, 1, 1),
   (0x2C75, 0x2C75, 1, 1), (0x2C7E, 0x2C7F, 1, -10815), (0x2C80, 0x2CE2, 2, 1),
   (0x2CEB, 0x2CED, 2, 1), (0x2CF2, 0x2CF2, 1, 1), (0xA640, 0xA66C, 2, 1),
   (0xA680, 0xA69A, 2, 1), (0xA722, 0xA72E, 2, 1), (0xA732, 0xA76E, 2, 1),
   (0xA779, 0xA77B, 2, 1), (0xA77D, 0xA77D, 1, -35332), (0xA77E, 0xA786, 2, 1),
   (0xA78B, 0xA78B, 1, 1), (0xA78D, 0xA78D, 1, -42280), (0xA790, 0xA792, 2, 1),
   (0xA796, 0xA7A8, 2, 1), (0xA7AA, 0xA7AA, 1, -42308), (0xA7AB, 0xA7AB, 1, -42319),
   (0xA7AC, 0xA7AC, 1, -42315), (0xA7AD, 0xA7AD, 1, -42305), (0xA7AE, 0xA7AE, 1, -42308),
   (0xA7B0, 0xA7B0, 1, -42258), (0xA7B1, 0xA7B1, 1, -42282), (0xA7B2, 0xA7B2, 1, -42261),
   (0xA7B3, 0xA7B3, 1, 928), (0xA7B4, 0xA7C2, 2, 1), (0xA7C4, 0xA7C4, 1, -48),
   (0xA7C5, 0xA7C5, 1, -42307), (0xA7C6, 0xA7C6, 1, -35384), (0xA7C7, 0xA7C9, 2, 1),
   (0xA7D0, 0xA7D0, 1, 1), (0xA7D6, 0xA7D8, 2, 1), (0xA7F5, 0xA7F5, 1, 1),
   (0xFF21, 0xFF3A, 1, 32), (0x10400, 0x10427, 1, 40), (0x104B0, 0x104D3, 1, 40),
   (0x10570, 0x1057A, 1, 39), (0x1057C, 0x1058A, 1, 39), (0x1058C, 0x10592, 1, 39),
   (0x10594, 0x10595, 1, 39), (0x10C80, 0x10CB2, 1, 64), (0x118A0, 0x118BF, 1, 32),
   (0x16E40, 0x16E5F, 1, 32), (0x1E900, 0x1E921, 1, 34)
  ]

/-- Go `unicode.ToLower`: the ASCII fast path, then the case table. -/
def unicodeToLower (r : Char) : Char :=
  let n := r.toNat
  if n ≤ 0x7F then
    if 0x41 ≤ n ∧ n ≤ 0x5A then Char.ofNat (n + 32) else r
  else
    match lowerCaseRanges.find?
        (fun e => decide (e.1 ≤ n) && decide (n ≤ e.2.1) && decide ((n - e.1) % e.2.2.1 = 0)) with
    | some e => Char.ofNat (Int.toNat ((n : Int) + e.2.2.2))
    | none => r

/-- Go `strings.ToLower`: every rune mapped by `unicode.ToLower`. -/
def ToLower (s : GoString) : GoString := s.map unicodeToLower

/-- The code points of the comma and of the white space runes of `isSpace`. -/
def separatorRunes : List Nat :=
  [0x09, 0x0A, 0x0B, 0x0C, 0x0D, 0x20, 0x2C, 0x85, 0xA0, 0x1680, 0x2000, 0x2001, 0x2002,
   0x2003, 0x2004, 0x2005, 0x2006, 0x2007, 0x2008, 0x2009, 0x200A, 0x2028, 0x2029, 0x202F,
   0x205F, 0x3000]

/-- A progression of the case table neither starts from nor lands on a comma
or a white space rune. -/
def avoidsSeparators (e : Nat × Nat × Nat × Int) : Bool :=
  separatorRunes.all (fun p =>
    !(decide (e.1 ≤ p) && decide (p ≤ e.2.1)) &&
    !(decide ((e.1 : Int) + e.2.2.2 ≤ (p : Int)) && decide ((p : Int) ≤ (e.2.1 : Int) + e.2.2.2)))

/-- Go `strings.TrimSpace`: leading and trailing white space removed. -/
def TrimSpace (s : GoString) : GoString :=
  ((s.dropWhile isSpace).reverse.dropWhile isSpace).reverse

/-- Go `strings.Split(s, sep)` for a one-rune separator: the pieces between
separators, in order; the empty string gives one empty piece. -/
def Split : GoString → Char → List GoString
  | [], _ => [[]]
  | c :: cs, sep =>
    if c = sep then [] :: Split cs sep
    else
      match Split cs sep with
      | [] => [[c]]
      | p :: ps => (c :: p) :: ps

/-- Go `GetListEnv` (env.go 27-44). `env` is the result of `os.LookupEnv`:
`none` when the variable is unset. The returned set is the list of its keys. -/
def GetListEnv (env : Option GoString) : List GoString :=
  match env with
  | none => []
  | some value =>
    ((Split (ToLower value) ',').map TrimSpace).filter (fun parsed => parsed ≠ [])

/-- Go `GetBooleanEnv` (env.go 46-54). `env` is the result of `os.LookupEnv`. -/
def GetBooleanEnv (env : Option GoString) (defaultValue : Bool) : Bool :=
  match env with
  | some value => decide (ToLower (TrimSpace value) ≠ "false".toList)
  | none => defaultValue

/-- Go `LangInfo` (helpers/types.go). -/
structure LangInfo where
  Size : Int
  Occurrences : Int
  Colour : GoString
  /-- The field `Prop` of the source (a reserved word here). -/
  Prop_ : ℚ
  deriving DecidableEq

/-- Go `StringPtrOrNil` (graphql.go 16-22). -/
def StringPtrOrNil (v : GoString) : Option GoString :=
  if v = [] then none else some v

/-- What the HTTP client gives for one request of `RunRestQuery`: a transport
error, or a response with its status code and body (`readFails`: reading
the body ends in an error). -/
inductive HttpResult where
  | transportError : HttpResult
  | response (status : Nat) (body : GoString) (readFails : Bool) : HttpResult
  deriving DecidableEq

/-- The errors `RunRestQuery` returns. -/
inductive RestError where
  | buildRequest : RestError
  | unexpectedStatus (status : Nat) (body : GoString) : RestError
  | readBody : RestError
  | tooMany202 : RestError
  deriving DecidableEq

/-- The two results of `RunRestQuery` and the number of requests it has sent. -/
structure RestOutcome where
  body : Option GoString
  err : Option RestError
  issued : Nat
  deriving DecidableEq

/-- The retry loop of `RunRestQuery` (rest.go 23-67) with `attempts` iterations
left and `issued` requests sent so far. `requestOk` is whether
`http.NewRequest` accepts the URL; `client i` is what the client gives for
request number `i` (from 0). -/
def restLoop (requestOk : Bool) (client : Nat → HttpResult) : Nat → Nat → RestOutcome
  | 0, issued => { body := none, err := some RestError.tooMany202, issued := issued }
  | attempts + 1, issued =>
    if !requestOk then { body := none, err := some RestError.buildRequest, issued := issued }
    else
      match client issued with
      | HttpResult.transportError => restLoop requestOk client attempts (issued + 1)
      | HttpResult.response status body readFails =>
        if status = 202 then restLoop requestOk client attempts (issued + 1)
        else if status ≠ 200 then
          { body := none, err := some (RestError.unexpectedStatus status body), issued := issued + 1 }
        else if readFails then
          { body := none, err := some RestError.readBody, issued := issued + 1 }
        else { body := some body, err := none, issued := issued + 1 }

/-- Go `RunRestQuery` (rest.go 12-68). -/
def RunRestQuery (requestOk : Bool) (client : Nat → HttpResult) : RestOutcome :=
  restLoop requestOk client 60 0

/-- A result of the client after which `RunRestQuery` waits and sends the
request again: a transport error or a 202. -/
def HttpResult.pending : HttpResult → Bool
  | HttpResult.transportError => true
  | HttpResult.response status _ _ => decide (status = 202)

/-- A client that answers 202 to the first three requests and 200 with the body
`[]` (as JSON text) to every later one. -/
def clientReadyAtFourth (i : Nat) : HttpResult :=
  if i < 3 then HttpResult.response 202 [] false
  else HttpResult.response 200 "[]".toList false

end helpers

namespace snapshot

open helpers

/-- Lookup `m[k]` in a Go map. -/
def mapGet {β : Type} : List (GoString × β) → GoString → Option β
  | [], _ => none
  | (k', v) :: m, k => if k' = k then some v else mapGet m k

/-- Assignment `m[k] = v` in a Go map: the entry is replaced when the key is
present and added otherwise. -/
def mapSet {β : Type} : List (GoString × β) → GoString → β → List (GoString × β)
  | [], k, v => [(k, v)]
  | (k', v') :: m, k, v =>
    if k' = k then (k', v) :: m else (k', v') :: mapSet m k v

/-- The `Stargazers` field of `RepoBase`. -/
structure StargazersField where
  TotalCount : Int
  deriving DecidableEq

/-- The `Node` of a language edge. -/
structure LangNode where
  Name : GoString
  Color : GoString
  deriving DecidableEq

/-- A language edge of `RepoWithLanguages.Languages.Edges`. -/
structure LangEdge where
  Size : Int
  Node : LangNode
  deriving DecidableEq

/-- The `Languages` field of `RepoWithLanguages`. -/
structure LanguagesField where
  Edges : List LangEdge
  deriving DecidableEq

/-- Go `RepoWithLanguages` (types.go 10-31), with the embedded `RepoBase` inlined. -/
structure RepoWithLanguages where
  NameWithOwner : GoString
  IsFork : Bool
  Stargazers : StargazersField
  ForkCount : Int
  Languages : LanguagesField
  deriving DecidableEq

/-- The `PageInfo` of a paginated collection. -/
structure PageInfo where
  HasNextPage : Bool
  EndCursor : GoString
  deriving DecidableEq

/-- One page of a paginated repository collection. -/
structure RepoConnection where
  PageInfo : PageInfo
  Nodes : List RepoWithLanguages
  deriving DecidableEq

/-- The `Viewer` of `ReposOverviewQuery`. -/
structure ViewerField where
  Login : GoString
  Name : GoString
  Repositories : RepoConnection
  RepositoriesContributedTo : RepoConnection
  deriving DecidableEq

/-- Go `ReposOverviewQuery` (types.go 33-53): the response to one overview query. -/
structure ReposOverviewQuery where
  Viewer : ViewerField
  deriving DecidableEq

/-- The variables of one overview query, as built by `reposOverview`. -/
structure QueryVars where
  repoCursor : GoString
  contribCursor : GoString
  deriving DecidableEq

/-- The remote query API: the responses still to come and the queries received. -/
structure Remote where
  pages : List ReposOverviewQuery
  requests : List QueryVars
  deriving DecidableEq

/-- Go `Snapshot` (types.go 89-108) without the credentials and the two HTTP clients. -/
structure Snapshot where
  user : GoString
  excludedRepos : List GoString
  excludedLangs : List GoString
  includeForkedRepos : Bool
  includeExternalRepos : Bool
  IncludeProfileViews : Bool
  _name : Option GoString
  _stargazers : Option Int
  _forks : Option Int
  _totalContributions : Option Int
  _languages : Option (List (GoString × LangInfo))
  _repos : Option (List (GoString × RepoWithLanguages))
  _linesChanged : Option (Int × Int)
  _views : Option Int
  _profileViews : Option Int
  deriving DecidableEq

/-- Go `NewSnapshot` (snapshot.go 16-47). -/
def NewSnapshot (user : GoString) (excludedRepos excludedLangs : List GoString)
    (includeForkedRepos includeExternalRepos includeProfileViews : Bool) : Snapshot :=
  { user := user
    excludedRepos := excludedRepos
    excludedLangs := excludedLangs
    includeForkedRepos := includeForkedRepos
    includeExternalRepos := includeExternalRepos
    IncludeProfileViews := includeProfileViews
    _name := none
    _stargazers := none
    _forks := none
    _totalContributions := none
    _languages := none
    _repos := none
    _linesChanged := none
    _views := none
    _profileViews := none }

/-- Go `getViewerName` (snapshot.go 49-58). -/
def getViewerName (q : ReposOverviewQuery) : GoString :=
  if q.Viewer.Name ≠ [] then q.Viewer.Name
  else if q.Viewer.Login ≠ [] then q.Viewer.Login
  else "No Name".toList

/-- One iteration of the edge loop of `parseRepoLanguages` (snapshot.go 145-172). -/
def parseLangEdge (excludedLangs : List GoString) (langs : List (GoString × LangInfo))
    (langEdge : LangEdge) : List (GoString × LangInfo) :=
  let langName := langEdge.Node.Name
  if ToLower langName ∈ excludedLangs then langs
  else
    match mapGet langs langName with
    | some entry =>
      mapSet langs langName
        { entry with Size := entry.Size + langEdge.Size, Occurrences := entry.Occurrences + 1 }
    | none =>
      let colour := if langEdge.Node.Color = [] then "#000000".toList else langEdge.Node.Color
      mapSet langs langName
        { Size := langEdge.Size, Occurrences := 1, Colour := colour, Prop_ := 0 }

/-- Go `parseRepoLanguages` (snapshot.go 139-173). -/
def parseRepoLanguages (self : Snapshot) (repo : RepoWithLanguages) : Snapshot :=
  let langs : List (GoString × LangInfo) :=
    match self._languages with
    | none => []
    | some m => m
  { self with _languages := some (repo.Languages.Edges.foldl (parseLangEdge self.excludedLangs) langs) }

/-- The counting part of the repository loop of `getStats` (snapshot.go 107-114):
the record is stored, its languages are parsed, its stars are added when
positive and its forks are added. -/
def countRepo (self : Snapshot) (repo : RepoWithLanguages) : Snapshot :=
  let self := { self with _repos := some (mapSet (self._repos.getD []) repo.NameWithOwner repo) }
  let self := parseRepoLanguages self repo
  let self :=
    if repo.Stargazers.TotalCount > 0 then
      { self with _stargazers := self._stargazers.map (fun n => n + repo.Stargazers.TotalCount) }
    else self
  { self with _forks := self._forks.map (fun n => n + repo.ForkCount) }

/-- The body of the repository loop of `getStats` (snapshot.go 88-115): the
three `continue` guards, then the counting part. -/
def ingestRepo (self : Snapshot) (repo : RepoWithLanguages) : Snapshot :=
  if repo.NameWithOwner ∈ self.excludedRepos then self
  else if (mapGet (self._repos.getD []) repo.NameWithOwner).isSome then self
  else if repo.IsFork && !self.includeForkedRepos then self
  else countRepo self repo

/-- The slice `repos` that `getStats` ranges over for one response (snapshot.go 81-86). -/
def pageRepos (self : Snapshot) (statsQuery : ReposOverviewQuery) : List RepoWithLanguages :=
  if self.includeExternalRepos then
    statsQuery.Viewer.Repositories.Nodes ++ statsQuery.Viewer.RepositoriesContributedTo.Nodes
  else statsQuery.Viewer.Repositories.Nodes

/-- Go `reposOverview` (snapshot.go 175-192): the variables sent with the query. -/
def reposOverview (ownedCursor contribCursor : Option GoString) : QueryVars :=
  { repoCursor := match ownedCursor with
      | some c => c
      | none => []
    contribCursor := match contribCursor with
      | some c => c
      | none => [] }

/-- What one response does to the snapshot (snapshot.go 80-115). -/
def ingestPage (self : Snapshot) (statsQuery : ReposOverviewQuery) : Snapshot :=
  let self := { self with _name := some (getViewerName statsQuery) }
  (pageRepos self statsQuery).foldl ingestRepo self

/-- Whether the loop of `getStats` leaves after this response (snapshot.go 121-123). -/
def lastPage (statsQuery : ReposOverviewQuery) : Bool :=
  !statsQuery.Viewer.Repositories.PageInfo.HasNextPage &&
    !statsQuery.Viewer.RepositoriesContributedTo.PageInfo.HasNextPage

/-- The pagination loop of `getStats` (snapshot.go 76-124). Each iteration
sends one query and takes the next response of the remote. -/
def statsLoop (self : Snapshot) (repoCursor contribCursor : GoString)
    (requests : List QueryVars) : List ReposOverviewQuery → Option (Snapshot × Remote)
  | [] => none
  | statsQuery :: rest =>
    let cursors := reposOverview (StringPtrOrNil repoCursor) (StringPtrOrNil contribCursor)
    let self := ingestPage self statsQuery
    if lastPage statsQuery then
      some (self, { pages := rest, requests := requests ++ [cursors] })
    else
      statsLoop self statsQuery.Viewer.Repositories.PageInfo.EndCursor
        statsQuery.Viewer.RepositoriesContributedTo.PageInfo.EndCursor
        (requests ++ [cursors]) rest

/-- The sum `total` of the sizes of all languages (snapshot.go 128-131). -/
def totalSize (langs : List (GoString × LangInfo)) : Int :=
  (langs.map (fun kv => kv.2.Size)).sum

/-- The percentage pass at the end of `getStats` (snapshot.go 128-136). -/
def setProps (langs : Option (List (GoString × LangInfo))) :
    Option (List (GoString × LangInfo)) :=
  match langs with
  | none => none
  | some m =>
    let total := totalSize m
    some (m.map (fun kv =>
      if total > 0 then (kv.1, { kv.2 with Prop_ := (kv.2.Size : ℚ) * 100 / (total : ℚ) })
      else kv))

/-- The start of `getStats` (snapshot.go 63-71): the two counters are created
when absent and the repository mapping is replaced by an empty one. -/
def initStats (self : Snapshot) : Snapshot :=
  let self := if self._stargazers = none then { self with _stargazers := some 0 } else self
  let self := if self._forks = none then { self with _forks := some 0 } else self
  { self with _repos := some [] }

/-- Go `getStats` (snapshot.go 62-137). -/
def getStats (self : Snapshot) (remote : Remote) : Option (Snapshot × Remote) :=
  match statsLoop (initStats self) [] [] remote.requests remote.pages with
  | none => none
  | some (self, remote) => some ({ self with _languages := setProps self._languages }, remote)

/-- Go `GetName` (snapshot.go 220-227). -/
def GetName (self : Snapshot) (remote : Remote) : Option (GoString × Snapshot × Remote) :=
  match self._name with
  | some name => some (name, self, remote)
  | none =>
    match getStats self remote with
    | none => none
    | some (self, remote) => self._name.map (fun name => (name, self, remote))

/-- Go `GetStargazers` (snapshot.go 229-236). -/
def GetStargazers (self : Snapshot) (remote : Remote) : Option (Int × Snapshot × Remote) :=
  match self._stargazers with
  | some n => some (n, self, remote)
  | none =>
    match getStats self remote with
    | none => none
    | some (self, remote) => self._stargazers.map (fun n => (n, self, remote))

/-- Go `GetForks` (snapshot.go 238-245). -/
def GetForks (self : Snapshot) (remote : Remote) : Option (Int × Snapshot × Remote) :=
  match self._forks with
  | some n => some (n, self, remote)
  | none =>
    match getStats self remote with
    | none => none
    | some (self, remote) => self._forks.map (fun n => (n, self, remote))

/-- Go `GetRepos` (snapshot.go 282-288); the returned map may be `nil`. -/
def GetRepos (self : Snapshot) (remote : Remote) :
    Option (Option (List (GoString × RepoWithLanguages)) × Snapshot × Remote) :=
  match self._repos with
  | some m => some (some m, self, remote)
  | none =>
    match getStats self remote with
    | none => none
    | some (self, remote) => some (self._repos, self, remote)

/-- Go `GetLanguages` (snapshot.go 418-424); the returned map may be `nil`. -/
def GetLanguages (self : Snapshot) (remote : Remote) :
    Option (Option (List (GoString × LangInfo)) × Snapshot × Remote) :=
  match self._languages with
  | some m => some (some m, self, remote)
  | none =>
    match getStats self remote with
    | none => none
    | some (self, remote) => some (self._languages, self, remote)

/-- The remote side of `GetContributions`: the answer to the contribution-years
query, and the `viewer` object answered to the combined per-year query (one
entry per year: its alias and its `totalContributions`). `none` is a failed
query, on which the code calls `log.Fatalf`. -/
structure ContribRemote where
  years : Option (List Int)
  viewer : List Int → Option (List (GoString × Int))

/-- Go `GetContributions` (snapshot.go 290-325). -/
def GetContributions (self : Snapshot) (remote : ContribRemote) : Option (Int × Snapshot) :=
  match self._totalContributions with
  | some n => some (n, self)
  | none =>
    let self := { self with _totalContributions := some 0 }
    match remote.years with
    | none => none
    | some years =>
      match remote.viewer years with
      | none => none
      | some viewer => some (viewer.foldl (fun total kv => total + kv.2) 0, self)

/-! ### Views and lines changed -/

/-- What the traffic endpoint gives `GetViews` for one repository: a transport
error, a body that does not decode, or the decoded `count` (its integer part). -/
inductive ViewsResult where
  | transportError : ViewsResult
  | undecodable : ViewsResult
  | count (n : Int) : ViewsResult
  deriving DecidableEq

/-- The loop of `GetViews` over the repository mapping (snapshot.go 254-276).
`client` answers a request by its URI; `sent` is the list of URIs requested. -/
def viewsLoop (client : GoString → ViewsResult) :
    List (GoString × RepoWithLanguages) → Int → List GoString → Int × List GoString
  | [], total, sent => (total, sent)
  | (repo, _) :: rest, total, sent =>
    let uri := "https://api.github.com/repos/".toList ++ repo ++ "/traffic/views".toList
    match client uri with
    | ViewsResult.transportError => viewsLoop client rest total (sent ++ [uri])
    | ViewsResult.undecodable => viewsLoop client rest total (sent ++ [uri])
    | ViewsResult.count n => viewsLoop client rest (total + n) (sent ++ [uri])

/-- Go `GetViews` (snapshot.go 247-280): the value, the snapshot and the URIs requested. -/
def GetViews (self : Snapshot) (client : GoString → ViewsResult) (sent : List GoString) :
    Int × Snapshot × List GoString :=
  match self._views with
  | some n => (n, self, sent)
  | none =>
    let r := viewsLoop client (self._repos.getD []) 0 sent
    (r.1, { self with _views := some r.1 }, r.2)

/-- A commit of `CommitStatsQuery`, with the login of its author. -/
structure CommitNode where
  Additions : Int
  Deletions : Int
  AuthorLogin : GoString
  deriving DecidableEq

/-- The `History` of Go `CommitStatsQuery` (types.go 55-79): one page of commits. -/
structure CommitStatsQuery where
  HasNextPage : Bool
  EndCursor : GoString
  Nodes : List CommitNode
  deriving DecidableEq

/-- The variables of one commit-history query; the first cursor is `nil`. -/
structure CommitVars where
  owner : GoString
  name : GoString
  commitCursor : Option GoString
  deriving DecidableEq

/-- The remote commit-history API: the responses still to come and the queries received. -/
structure CommitRemote where
  pages : List CommitStatsQuery
  requests : List CommitVars
  deriving DecidableEq

/-- Go `SplitOwnerRepo` (github.go 8-17); `none` is the error. -/
def SplitOwnerRepo (nameWithOwner : GoString) : Option (GoString × GoString) :=
  match Split nameWithOwner '/' with
  | [owner, name] => some (owner, name)
  | _ => none

/-- The commit loop of one page of `GetLinesChanged` (snapshot.go 397-402). -/
def countCommits (user : GoString) (additions deletions : Int) (nodes : List CommitNode) :
    Int × Int :=
  nodes.foldl
    (fun acc commit =>
      if commit.AuthorLogin = user then (acc.1 + commit.Additions, acc.2 + commit.Deletions)
      else acc)
    (additions, deletions)

/-- The page loop of `GetLinesChanged` for one repository (snapshot.go 385-411). -/
def commitLoop (user owner name : GoString) (cursor : Option GoString)
    (additions deletions : Int) (requests : List CommitVars) :
    List CommitStatsQuery → Option (Int × Int × CommitRemote)
  | [] => none
  | history :: rest =>
    let vars : CommitVars := { owner := owner, name := name, commitCursor := cursor }
    let sums := countCommits user additions deletions history.Nodes
    if !history.HasNextPage then
      some (sums.1, sums.2, { pages := rest, requests := requests ++ [vars] })
    else
      commitLoop user owner name (some history.EndCursor) sums.1 sums.2 (requests ++ [vars]) rest

/-- The repository loop of `GetLinesChanged` (snapshot.go 367-412). -/
def linesLoop (self : Snapshot) :
    List (GoString × RepoWithLanguages) → Int → Int → CommitRemote →
      Option (Int × Int × CommitRemote)
  | [], additions, deletions, remote => some (additions, deletions, remote)
  | (_, repo) :: rest, additions, deletions, remote =>
    if repo.NameWithOwner ∈ self.excludedRepos then linesLoop self rest additions deletions remote
    else
      match SplitOwnerRepo repo.NameWithOwner with
      | none => linesLoop self rest additions deletions remote
      | some (owner, name) =>
        match commitLoop self.user owner name none additions deletions remote.requests
            remote.pages with
        | none => none
        | some (a, d, remote) => linesLoop self rest a d remote

/-- Go `GetLinesChanged` (snapshot.go 327-416). -/
def GetLinesChanged (self : Snapshot) (remote : CommitRemote) :
    Option (Int × Snapshot × CommitRemote) :=
  match self._linesChanged with
  | some (additions, deletions) => some (additions + deletions, self, remote)
  | none =>
    match linesLoop self (self._repos.getD []) 0 0 remote with
    | none => none
    | some (additions, deletions, remote) =>
      some (additions + deletions,
        { self with _linesChanged := some (additions, deletions) }, remote)

/-! ### The pass of `getStats` as a fold over the records it processes -/

/-- The responses the loop of `getStats` handles: those up to and including the
first one on which both collections report no next page; `none` when there is
no such response. -/
def consumedPages : List ReposOverviewQuery → Option (List ReposOverviewQuery)
  | [] => none
  | statsQuery :: rest =>
    if lastPage statsQuery then some [statsQuery]
    else (consumedPages rest).map (fun ps => statsQuery :: ps)

/-- The records the repository loop of `getStats` ranges over during the whole
pass, in order. -/
def processedRepos (self : Snapshot) (pages : List ReposOverviewQuery) :
    List RepoWithLanguages :=
  (((consumedPages pages).getD []).map (pageRepos self)).flatten

/-- The queries sent for the given handled responses, starting from the given cursors. -/
def loopRequests (repoCursor contribCursor : GoString) :
    List ReposOverviewQuery → List QueryVars
  | [] => []
  | statsQuery :: rest =>
    reposOverview (StringPtrOrNil repoCursor) (StringPtrOrNil contribCursor) ::
      loopRequests statsQuery.Viewer.Repositories.PageInfo.EndCursor
        statsQuery.Viewer.RepositoriesContributedTo.PageInfo.EndCursor rest

/-- The display name left by the handled responses: that of the last one. -/
def nameAfter (name : Option GoString) (pages : List ReposOverviewQuery) : Option GoString :=
  pages.foldl (fun _ statsQuery => some (getViewerName statsQuery)) name

/-- The end of the pass: the display name and the percentage shares are set. -/
def finishStats (self : Snapshot) (name : Option GoString) : Snapshot :=
  { self with _name := name, _languages := setProps self._languages }

/-- The four results of the repository pass. -/
def statsOf (self : Snapshot) :
    Option (List (GoString × RepoWithLanguages)) × Option Int × Option Int ×
      Option (List (GoString × LangInfo)) :=
  (self._repos, self._stargazers, self._forks, self._languages)

/-- Two responses agree on the owned-repository nodes and on the page info of
both collections; their contributed-to nodes (and viewer names) may differ. -/
def agreeButContribNodes (q q' : ReposOverviewQuery) : Prop :=
  q.Viewer.Repositories = q'.Viewer.Repositories ∧
    q.Viewer.RepositoriesContributedTo.PageInfo = q'.Viewer.RepositoriesContributedTo.PageInfo

instance (q q' : ReposOverviewQuery) : Decidable (agreeButContribNodes q q') := by
  unfold agreeButContribNodes
  exact inferInstance

/-- The caches of the repository pass are consistent: when the language mapping
exists the pass has run, so the name, the two totals and the repository mapping
exist as well. -/
def cachesConsistent (self : Snapshot) : Prop :=
  self._languages ≠ none →
    self._name ≠ none ∧ self._stargazers ≠ none ∧ self._forks ≠ none ∧ self._repos ≠ none

/-! ### A remote that serves its collections 100 records per page -/

/-- Page number `i` (from 0) of a collection served `first: 100` records per
page: its records, whether more follow, and the cursor after its last record
(`cursor n` is the cursor text after `n` records). -/
def servedPage (cursor : Nat → GoString) (records : List RepoWithLanguages) (i : Nat) :
    RepoConnection :=
  { PageInfo :=
      { HasNextPage := decide (100 * (i + 1) < records.length)
        EndCursor := cursor (100 * (i + 1)) }
    Nodes := (records.drop (100 * i)).take 100 }

/-- The responses number `i`, `i + 1`, ... (`count` of them) of a remote that
serves the owned and the contributed-to collection page by page. -/
def servedResponses (login name : GoString) (cursor : Nat → GoString)
    (owned contrib : List RepoWithLanguages) : Nat → Nat → List ReposOverviewQuery
  | _, 0 => []
  | i, count + 1 =>
    { Viewer :=
      { Login := login
        Name := name
        Repositories := servedPage cursor owned i
        RepositoriesContributedTo := servedPage cursor contrib i } } ::
      servedResponses login name cursor owned contrib (i + 1) count

/-! ### Language exclusion in the words of the specification -/

/-- Whether the name equals, ignoring letter case, one of the trimmed
comma-separated entries of the value. -/
def matchesEntry (value name : GoString) : Bool :=
  ((Split value ',').map TrimSpace).any (fun e => decide (ToLower name = ToLower e))

/-- Every language edge of the response carries the name of its language: no
name is empty. -/
def namedLangs (q : ReposOverviewQuery) : Bool :=
  (q.Viewer.Repositories.Nodes ++ q.Viewer.RepositoriesContributedTo.Nodes).all
    (fun r => r.Languages.Edges.all (fun e => decide (e.Node.Name ≠ [])))

/-- Whether the name equals, ignoring letter case, one of the non-empty trimmed
comma-separated entries of the value: for a name that is not empty, the same
as `matchesEntry`. -/
def listedIn (value name : GoString) : Bool :=
  ((Split value ',').map TrimSpace).any
    (fun e => decide (e ≠ []) && decide (ToLower name = ToLower e))

/-- The record without the language edges whose name satisfies `p`. -/
def withoutLangs (p : GoString → Bool) (repo : RepoWithLanguages) : RepoWithLanguages :=
  { repo with
    Languages := { Edges := repo.Languages.Edges.filter (fun e => !p e.Node.Name) } }

/-- The response without the language edges whose name satisfies `p`, in the
records of both collections. -/
def pageWithoutLangs (p : GoString → Bool) (q : ReposOverviewQuery) : ReposOverviewQuery :=
  { Viewer :=
    { Login := q.Viewer.Login
      Name := q.Viewer.Name
      Repositories :=
        { PageInfo := q.Viewer.Repositories.PageInfo
          Nodes := q.Viewer.Repositories.Nodes.map (withoutLangs p) }
      RepositoriesContributedTo :=
        { PageInfo := q.Viewer.RepositoriesContributedTo.PageInfo
          Nodes := q.Viewer.RepositoriesContributedTo.Nodes.map (withoutLangs p) } } }

/-- The snapshot in which every stored record has lost the language edges whose
name satisfies `p`. -/
def storedWithoutLangs (p : GoString → Bool) (self : Snapshot) : Snapshot :=
  { self with
    _repos := self._repos.map (fun m => m.map (fun kv => (kv.1, withoutLangs p kv.2))) }

/-! ### The totals in the words of the specification -/

/-- The sum of the star counts of the stored records. -/
def starTotal (repos : List (GoString × RepoWithLanguages)) : Int :=
  (repos.map (fun kv => kv.2.Stargazers.TotalCount)).sum

/-- The sum of the fork counts of the stored records. -/
def forkTotal (repos : List (GoString × RepoWithLanguages)) : Int :=
  (repos.map (fun kv => kv.2.ForkCount)).sum

/-- The language edges of the stored records that count for a language: the
edges of that name, in the order of the mapping, and none of them when the
name is excluded. -/
def countedEdges (excludedLangs : List GoString) (repos : List (GoString × RepoWithLanguages))
    (name : GoString) : List LangEdge :=
  ((repos.map (fun kv => kv.2.Languages.Edges)).flatten).filter
    (fun e => decide (e.Node.Name = name) && decide (ToLower name ∉ excludedLangs))

/-- The size and the occurrence count that a list of edges gives a language:
the sum of the byte sizes and the number of edges; no entry for no edge. -/
def tally (edges : List LangEdge) : Option (Int × Int) :=
  if edges.isEmpty then none
  else some ((edges.map (fun e => e.Size)).sum, (edges.length : Int))

/-- The size and the occurrence count of a language in the language mapping. -/
def sizeAndCount (langs : List (GoString × LangInfo)) (name : GoString) : Option (Int × Int) :=
  (mapGet langs name).map (fun info => (info.Size, info.Occurrences))

/-! ### Concrete inputs -/

/-- A page info with no next page and no cursor. -/
def noNextPage : PageInfo := { HasNextPage := false, EndCursor := [] }

/-- A single, final response with the given owned and contributed-to nodes. -/
def finalPage (owned contrib : List RepoWithLanguages) : ReposOverviewQuery :=
  { Viewer :=
    { Login := "octocat".toList
      Name := []
      Repositories := { PageInfo := noNextPage, Nodes := owned }
      RepositoriesContributedTo := { PageInfo := noNextPage, Nodes := contrib } } }

/-- A repository `Foo/Bar` with 5 stars, 2 forks and 100 bytes of Go. -/
def repoFooBar : RepoWithLanguages :=
  { NameWithOwner := "Foo/Bar".toList
    IsFork := false
    Stargazers := { TotalCount := 5 }
    ForkCount := 2
    Languages := { Edges := [{ Size := 100, Node := { Name := "Go".toList, Color := [] } }] } }

/-- A snapshot made with `EXCLUDED_REPOS=Foo/Bar` and nothing else configured. -/
def snapExcludingFooBar : Snapshot :=
  NewSnapshot "octocat".toList (GetListEnv (some "Foo/Bar".toList)) (GetListEnv none)
    false false false

/-- A snapshot with no exclusion and every flag at its default. -/
def snapDefault : Snapshot :=
  NewSnapshot "octocat".toList (GetListEnv none) (GetListEnv none) false false false

/-- A repository `octocat/app`: not a fork, 5 stars, 2 forks, 100 bytes of Go. -/
def repoApp : RepoWithLanguages :=
  { NameWithOwner := "octocat/app".toList
    IsFork := false
    Stargazers := { TotalCount := 5 }
    ForkCount := 2
    Languages := { Edges := [{ Size := 100, Node := { Name := "Go".toList, Color := [] } }] } }

/-- A later record with the identifier `octocat/app` and other values: 7 stars,
1 fork, 900 bytes of Go and 50 of Rust. -/
def repoAppLater : RepoWithLanguages :=
  { NameWithOwner := "octocat/app".toList
    IsFork := false
    Stargazers := { TotalCount := 7 }
    ForkCount := 1
    Languages := { Edges :=
      [{ Size := 900, Node := { Name := "Go".toList, Color := [] } },
       { Size := 50, Node := { Name := "Rust".toList, Color := "#dea584".toList } }] } }

/-- A forked repository `octocat/fork`: 3 stars, 1 fork, 40 bytes of C. -/
def repoFork : RepoWithLanguages :=
  { NameWithOwner := "octocat/fork".toList
    IsFork := true
    Stargazers := { TotalCount := 3 }
    ForkCount := 1
    Languages := { Edges := [{ Size := 40, Node := { Name := "C".toList, Color := [] } }] } }

/-- A snapshot with external contributions enabled and nothing else configured. -/
def snapExternal : Snapshot :=
  NewSnapshot "octocat".toList (GetListEnv none) (GetListEnv none) false true false

/-- A snapshot with external contributions enabled and `EXCLUDED_REPOS=octocat/app`. -/
def snapExternalExcludingApp : Snapshot :=
  NewSnapshot "octocat".toList (GetListEnv (some "octocat/app".toList)) (GetListEnv none)
    false true false

/-- The language entry for 100 bytes of Go seen once, being all bytes. -/
def langGoOnly : LangInfo :=
  { Size := 100, Occurrences := 1, Colour := "#000000".toList, Prop_ := 100 }

/-- The result of the pass on `octocat/app` alone, for the given flags. -/
def snapAfterApp (includeExternalRepos : Bool) : Snapshot :=
  { user := "octocat".toList
    excludedRepos := []
    excludedLangs := []
    includeForkedRepos := false
    includeExternalRepos := includeExternalRepos
    IncludeProfileViews := false
    _name := some "octocat".toList
    _stargazers := some 5
    _forks := some 2
    _totalContributions := none
    _languages := some [("Go".toList, langGoOnly)]
    _repos := some [("octocat/app".toList, repoApp)]
    _linesChanged := none
    _views := none
    _profileViews := none }

/-- A repository `octocat/mix`: 100 bytes of Go and 300 bytes of Rust. -/
def repoMix : RepoWithLanguages :=
  { NameWithOwner := "octocat/mix".toList
    IsFork := false
    Stargazers := { TotalCount := 1 }
    ForkCount := 0
    Languages := { Edges :=
      [{ Size := 100, Node := { Name := "Go".toList, Color := "#00ADD8".toList } },
       { Size := 300, Node := { Name := "Rust".toList, Color := "#dea584".toList } }] } }

/-- The result of the pass on `octocat/mix` alone with default flags: Go has a
share of 25 and Rust a share of 75. -/
def snapAfterMix : Snapshot :=
  { user := "octocat".toList
    excludedRepos := []
    excludedLangs := []
    includeForkedRepos := false
    includeExternalRepos := false
    IncludeProfileViews := false
    _name := some "octocat".toList
    _stargazers := some 1
    _forks := some 0
    _totalContributions := none
    _languages := some
      [("Go".toList,
          { Size := 100, Occurrences := 1, Colour := "#00ADD8".toList, Prop_ := 25 }),
       ("Rust".toList,
          { Size := 300, Occurrences := 1, Colour := "#dea584".toList, Prop_ := 75 })]
    _repos := some [("octocat/mix".toList, repoMix)]
    _linesChanged := none
    _views := none
    _profileViews := none }

/-- A response holding `octocat/mix` whose owned collection reports a next page. -/
def morePage : ReposOverviewQuery :=
  { Viewer :=
    { Login := "octocat".toList
      Name := []
      Repositories :=
        { PageInfo := { HasNextPage := true, EndCursor := "Y3Vyc29yOjEwMA".toList }
          Nodes := [repoMix] }
      RepositoriesContributedTo := { PageInfo := noNextPage, Nodes := [] } } }

/-- A snapshot made with `EXCLUDED_LANGS=Go, rust`, forks included and external
contributions enabled. -/
def snapExcludingGoRust : Snapshot :=
  NewSnapshot "octocat".toList (GetListEnv none) (GetListEnv (some "Go, rust".toList))
    true true false

/-- The result of the pass on `octocat/mix` and `octocat/fork` with
`EXCLUDED_LANGS=Go, rust`, forks included and external contributions enabled:
C is the only language. -/
def snapAfterExcludingGoRust : Snapshot :=
  { user := "octocat".toList
    excludedRepos := []
    excludedLangs := ["go".toList, "rust".toList]
    includeForkedRepos := true
    includeExternalRepos := true
    IncludeProfileViews := false
    _name := some "octocat".toList
    _stargazers := some 4
    _forks := some 1
    _totalContributions := none
    _languages := some
      [("C".toList, { Size := 40, Occurrences := 1, Colour := "#000000".toList, Prop_ := 100 })]
    _repos := some [("octocat/mix".toList, repoMix), ("octocat/fork".toList, repoFork)]
    _linesChanged := none
    _views := none
    _profileViews := none }

/-- The result of the pass on `octocat/app` and `octocat/mix`, with external
contributions enabled: 6 stars, 2 forks, 200 bytes of Go seen twice (a share of
40) and 300 bytes of Rust seen once (a share of 60). -/
def snapAfterAppMix : Snapshot :=
  { user := "octocat".toList
    excludedRepos := []
    excludedLangs := []
    includeForkedRepos := false
    includeExternalRepos := true
    IncludeProfileViews := false
    _name := some "octocat".toList
    _stargazers := some 6
    _forks := some 2
    _totalContributions := none
    _languages := some
      [("Go".toList,
          { Size := 200, Occurrences := 2, Colour := "#000000".toList, Prop_ := 40 }),
       ("Rust".toList,
          { Size := 300, Occurrences := 1, Colour := "#dea584".toList, Prop_ := 60 })]
    _repos := some [("octocat/app".toList, repoApp), ("octocat/mix".toList, repoMix)]
    _linesChanged := none
    _views := none
    _profileViews := none }

/-- A forked repository `acme/tool` the account contributed to: 3 stars, 1 fork,
300 bytes of Go. -/
def repoToolFork : RepoWithLanguages :=
  { NameWithOwner := "acme/tool".toList
    IsFork := true
    Stargazers := { TotalCount := 3 }
    ForkCount := 1
    Languages := { Edges := [{ Size := 300, Node := { Name := "Go".toList, Color := [] } }] } }

/-- A snapshot with external contributions enabled and forks included. -/
def snapExternalForks : Snapshot :=
  NewSnapshot "octocat".toList (GetListEnv none) (GetListEnv none) true true false

/-- The result of the pass on `octocat/app` and the fork `acme/tool`, with
external contributions enabled and forks included: 8 stars, 3 forks and 400
bytes of Go seen twice. -/
def snapAfterAppAndFork : Snapshot :=
  { user := "octocat".toList
    excludedRepos := []
    excludedLangs := []
    includeForkedRepos := true
    includeExternalRepos := true
    IncludeProfileViews := false
    _name := some "octocat".toList
    _stargazers := some 8
    _forks := some 3
    _totalContributions := none
    _languages := some
      [("Go".toList,
          { Size := 400, Occurrences := 2, Colour := "#000000".toList, Prop_ := 100 })]
    _repos := some [("octocat/app".toList, repoApp), ("acme/tool".toList, repoToolFork)]
    _linesChanged := none
    _views := none
    _profileViews := none }

/-- A response whose contributed-to collection holds the fork `octocat/fork` and
reports a next page. -/
def forkPage : ReposOverviewQuery :=
  { Viewer :=
    { Login := "octocat".toList
      Name := []
      Repositories := { PageInfo := noNextPage, Nodes := [] }
      RepositoriesContributedTo :=
        { PageInfo := { HasNextPage := true, EndCursor := "Y3Vyc29yOjEwMA".toList }
          Nodes := [repoFork] } } }

/-- A remote whose account made 5 contributions in 2024. -/
def contribRemote2024 : ContribRemote :=
  { years := some [2024]
    viewer := fun _ => some [("year2024".toList, 5)] }

/-- A remote whose account has no repository: every query is answered by a
final page without nodes. -/
def remoteNoRepos : Remote :=
  { pages := [finalPage [] [], finalPage [] [], finalPage [] []], requests := [] }

end snapshot

/-! ## The overview card (`main.go`) -/

namespace main

open helpers

/-- The seven placeholders of the overview card, in the order of `generateOverview`. -/
def placeholders : List GoString :=
  ["\x7b\x7b name \x7d\x7d".toList, "\x7b\x7b stars \x7d\x7d".toList,
   "\x7b\x7b forks \x7d\x7d".toList, "\x7b\x7b contributions \x7d\x7d".toList,
   "\x7b\x7b lines_changed \x7d\x7d".toList, "\x7b\x7b repos \x7d\x7d".toList,
   "\x7b\x7b views \x7d\x7d".toList]

/-- Placeholder number `i` (from 0). -/
def placeholder (i : Nat) : GoString := placeholders.getD i []

/-- A piece of a template: a character of its text, or a placeholder. -/
inductive Tok where
  | chr (c : Char) : Tok
  | ph (i : Nat) : Tok
  deriving DecidableEq

/-- The placeholder that starts the text, if one does. -/
def matchAt (s : GoString) : Option Nat :=
  (List.range 7).find? (fun i => (placeholder i).isPrefixOf s)

/-- The template as its pieces, read from the left; `skip` is the number of
characters left of a placeholder that has just been recognised. -/
def tokenize : Nat → GoString → List Tok
  | _, [] => []
  | skip + 1, _ :: cs => tokenize skip cs
  | 0, c :: cs =>
    match matchAt (c :: cs) with
    | some i => Tok.ph i :: tokenize ((placeholder i).length - 1) cs
    | none => Tok.chr c :: tokenize 0 cs

/-- The text of one piece: a character is itself, a placeholder is its value
when `replaced` says so and its own text otherwise. -/
def renderTok (replaced : Nat → Bool) (value : Nat → GoString) : Tok → GoString
  | Tok.chr c => [c]
  | Tok.ph i => if replaced i then value i else placeholder i

/-- The text of a list of pieces. -/
def render (replaced : Nat → Bool) (value : Nat → GoString) : List Tok → GoString
  | [] => []
  | tok :: rest => renderTok replaced value tok ++ render replaced value rest

/-- The template with each placeholder replaced by its value and every other
character left unchanged. -/
def substituteAll (value : Nat → GoString) (template : GoString) : GoString :=
  render (fun _ => true) value (tokenize 0 template)

end main

/-! ## Theorems -/

namespace helpers

/-! ### Strings and the exclusion lists -/

set_option maxRecDepth 100000 in
theorem avoidsSeparators_all : ∀ e ∈ lowerCaseRanges, avoidsSeparators e = true := by
  decide

theorem mem_separatorRunes_of (c : Char) (h : isSpace c = true ∨ c = ',') :
    c.toNat ∈ separatorRunes := by
  rcases h with h | h
  · unfold isSpace at h
    simp only [Bool.or_eq_true, Bool.and_eq_true, decide_eq_true_eq] at h
    unfold separatorRunes
    simp only [List.mem_cons, List.not_mem_nil, or_false]
    omega
  · subst h
    decide

theorem isSpace_of_not_separator (c : Char) (h : c.toNat ∉ separatorRunes) :
    isSpace c = false ∧ c ≠ ',' := by
  constructor
  · cases hs : isSpace c with
    | false => rfl
    | true => exact absurd (mem_separatorRunes_of c (Or.inl hs)) h
  · intro hc
    exact h (mem_separatorRunes_of c (Or.inr hc))

theorem toNat_ofNat_cases (m : Nat) : (Char.ofNat m).toNat = m ∨ (Char.ofNat m).toNat = 0 := by
  unfold Char.ofNat
  by_cases h : m.isValidChar
  · left
    simp only [h, dif_pos]
    rfl
  · right
    simp only [h, dif_neg, not_false_eq_true]
    rfl

theorem ofNat_not_separator (m : Nat) (h : m ∉ separatorRunes) :
    (Char.ofNat m).toNat ∉ separatorRunes := by
  rcases toNat_ofNat_cases m with h1 | h1
  · rw [h1]
    exact h
  · rw [h1]
    decide

/-- A rune that `unicode.ToLower` changes is neither a comma nor white space,
and neither is its lower case. -/
theorem unicodeToLower_cases (c : Char) :
    unicodeToLower c = c ∨
      (c.toNat ∉ separatorRunes ∧ (unicodeToLower c).toNat ∉ separatorRunes) := by
  unfold unicodeToLower
  dsimp only
  by_cases hascii : c.toNat ≤ 0x7F
  · rw [if_pos hascii]
    by_cases hup : 0x41 ≤ c.toNat ∧ c.toNat ≤ 0x5A
    · rw [if_pos hup]
      right
      constructor
      · unfold separatorRunes
        simp only [List.mem_cons, List.not_mem_nil, or_false]
        omega
      · apply ofNat_not_separator
        unfold separatorRunes
        simp only [List.mem_cons, List.not_mem_nil, or_false]
        omega
    · rw [if_neg hup]
      exact Or.inl rfl
  · rw [if_neg hascii]
    cases hfind : lowerCaseRanges.find?
        (fun e => decide (e.1 ≤ c.toNat) && decide (c.toNat ≤ e.2.1) &&
          decide ((c.toNat - e.1) % e.2.2.1 = 0)) with
    | none => exact Or.inl rfl
    | some e =>
      right
      have hmem : e ∈ lowerCaseRanges := List.mem_of_find?_eq_some hfind
      have hp := List.find?_some hfind
      simp only [Bool.and_eq_true, decide_eq_true_eq] at hp
      have hav := avoidsSeparators_all e hmem
      unfold avoidsSeparators at hav
      rw [List.all_eq_true] at hav
      constructor
      · intro hsep
        have := hav _ hsep
        simp only [Bool.and_eq_true, Bool.not_eq_true', Bool.and_eq_false_imp,
          decide_eq_true_eq, decide_eq_false_iff_not] at this
        exact this.1 hp.1.1 hp.1.2
      · dsimp only
        apply ofNat_not_separator
        intro hsep
        have := hav _ hsep
        simp only [Bool.and_eq_true, Bool.not_eq_true', Bool.and_eq_false_imp,
          decide_eq_true_eq, decide_eq_false_iff_not] at this
        have h0 : ((c.toNat : Int) + e.2.2.2).toNat ≠ 0 := by
          intro h0
          rw [h0] at hsep
          revert hsep
          decide
        have hpos : 0 ≤ (c.toNat : Int) + e.2.2.2 := by
          by_contra hneg
          exact h0 (Int.toNat_eq_zero.2 (by omega))
        have hcast : ((((c.toNat : Int) + e.2.2.2).toNat : Nat) : Int) = (c.toNat : Int) + e.2.2.2 :=
          Int.toNat_of_nonneg hpos
        apply this.2
        · rw [hcast]
          have := hp.1.1
          omega
        · rw [hcast]
          have := hp.1.2
          omega

theorem toLower_eq_comma (c : Char) : unicodeToLower c = ',' ↔ c = ',' := by
  rcases unicodeToLower_cases c with h | ⟨h1, h2⟩
  · rw [h]
  · constructor
    · intro h
      exact absurd h (isSpace_of_not_separator _ h2).2
    · intro h
      exact absurd h (isSpace_of_not_separator _ h1).2

theorem isSpace_toLower (c : Char) : isSpace (unicodeToLower c) = isSpace c := by
  rcases unicodeToLower_cases c with h | ⟨h1, h2⟩
  · rw [h]
  · rw [(isSpace_of_not_separator _ h1).1, (isSpace_of_not_separator _ h2).1]

/-- Beyond ASCII `ToLower` follows the case table: accented, Greek and Cyrillic
capitals, the Kelvin sign and the dotted capital I are lower-cased, and runes
without a lower case are kept. -/
theorem ToLower_beyond_ascii :
    ToLower "ÉCOLE".toList = "école".toList ∧
    ToLower "ΑΒΓ Жук".toList = "αβγ жук".toList ∧
    ToLower [Char.ofNat 0x212A, Char.ofNat 0x130] = "ki".toList ∧
    ToLower "straße 東京 c++".toList = "straße 東京 c++".toList := by
  decide

theorem Split_ne_nil (s : GoString) (sep : Char) : Split s sep ≠ [] := by
  cases s with
  | nil => simp [Split]
  | cons c cs =>
    unfold Split
    by_cases h : c = sep
    · simp [h]
    · simp only [h, if_false]
      cases Split cs sep <;> simp

theorem Split_ToLower (s : GoString) : Split (ToLower s) ',' = (Split s ',').map ToLower := by
  induction s with
  | nil => rfl
  | cons c cs ih =>
    have hcons : ToLower (c :: cs) = unicodeToLower c :: ToLower cs := rfl
    rw [hcons]
    unfold Split
    by_cases h : c = ','
    · have h' : unicodeToLower c = ',' := (toLower_eq_comma c).2 h
      simp only [h, h', if_true, List.map_cons, ih]
      rfl
    · have h' : ¬ unicodeToLower c = ',' := fun hc => h ((toLower_eq_comma c).1 hc)
      simp only [h, h', if_false, ih]
      cases hs : Split cs ',' with
      | nil => exact absurd hs (Split_ne_nil cs ',')
      | cons p ps => rfl

theorem dropWhile_isSpace_ToLower (s : GoString) :
    (ToLower s).dropWhile isSpace = ToLower (s.dropWhile isSpace) := by
  induction s with
  | nil => rfl
  | cons c cs ih =>
    have hcons : ToLower (c :: cs) = unicodeToLower c :: ToLower cs := rfl
    rw [hcons, List.dropWhile_cons, List.dropWhile_cons, isSpace_toLower]
    by_cases h : isSpace c = true
    · simp only [h, if_true, ih]
    · simp only [h, if_false, Bool.false_eq_true]
      rfl

theorem TrimSpace_ToLower (s : GoString) : TrimSpace (ToLower s) = ToLower (TrimSpace s) := by
  unfold TrimSpace
  rw [dropWhile_isSpace_ToLower]
  have hrev : ∀ t : GoString, (ToLower t).reverse = ToLower t.reverse := fun t => by
    unfold ToLower
    rw [List.map_reverse]
  rw [hrev, dropWhile_isSpace_ToLower, hrev]

theorem ToLower_eq_nil (s : GoString) : ToLower s = [] ↔ s = [] := by
  unfold ToLower
  exact List.map_eq_nil_iff

theorem mem_GetListEnv (value x : GoString) :
    x ∈ GetListEnv (some value) ↔
      ∃ e ∈ (Split value ',').map TrimSpace, e ≠ [] ∧ x = ToLower e := by
  unfold GetListEnv
  simp only [Split_ToLower, List.map_map, List.mem_filter, List.mem_map, Function.comp,
    decide_eq_true_eq]
  constructor
  · rintro ⟨⟨w, hw, rfl⟩, hne⟩
    rw [TrimSpace_ToLower] at hne ⊢
    exact ⟨TrimSpace w, ⟨w, hw, rfl⟩, fun h => hne ((ToLower_eq_nil _).2 h), rfl⟩
  · rintro ⟨e, ⟨w, hw, rfl⟩, hne, rfl⟩
    rw [← TrimSpace_ToLower]
    refine ⟨⟨w, hw, rfl⟩, ?_⟩
    rw [TrimSpace_ToLower]
    exact fun h => hne ((ToLower_eq_nil _).1 h)

end helpers

namespace snapshot

open helpers

/-! ### General lemmas -/


theorem ingestRepo_name (s : Snapshot) (n : Option GoString) (r : RepoWithLanguages) :
    ingestRepo { s with _name := n } r = { ingestRepo s r with _name := n } := by
  unfold ingestRepo countRepo parseRepoLanguages
  dsimp only
  split_ifs <;> rfl

theorem foldl_ingestRepo_name (rs : List RepoWithLanguages) (s : Snapshot) (n : Option GoString) :
    rs.foldl ingestRepo { s with _name := n } = { rs.foldl ingestRepo s with _name := n } := by
  induction rs generalizing s with
  | nil => rfl
  | cons r rs ih => simp only [List.foldl_cons, ingestRepo_name, ih]

theorem ingestRepo_config (s : Snapshot) (r : RepoWithLanguages) :
    (ingestRepo s r).excludedRepos = s.excludedRepos ∧
    (ingestRepo s r).excludedLangs = s.excludedLangs ∧
    (ingestRepo s r).includeForkedRepos = s.includeForkedRepos ∧
    (ingestRepo s r).includeExternalRepos = s.includeExternalRepos := by
  unfold ingestRepo countRepo parseRepoLanguages
  dsimp only
  split_ifs <;> exact ⟨rfl, rfl, rfl, rfl⟩

theorem foldl_ingestRepo_config (rs : List RepoWithLanguages) (s : Snapshot) :
    (rs.foldl ingestRepo s).excludedRepos = s.excludedRepos ∧
    (rs.foldl ingestRepo s).excludedLangs = s.excludedLangs ∧
    (rs.foldl ingestRepo s).includeForkedRepos = s.includeForkedRepos ∧
    (rs.foldl ingestRepo s).includeExternalRepos = s.includeExternalRepos := by
  induction rs generalizing s with
  | nil => exact ⟨rfl, rfl, rfl, rfl⟩
  | cons r rs ih =>
    obtain ⟨h1, h2, h3, h4⟩ := ih (ingestRepo s r)
    obtain ⟨g1, g2, g3, g4⟩ := ingestRepo_config s r
    exact ⟨h1.trans g1, h2.trans g2, h3.trans g3, h4.trans g4⟩

theorem pageRepos_congr (s t : Snapshot) (q : ReposOverviewQuery)
    (h : t.includeExternalRepos = s.includeExternalRepos) : pageRepos t q = pageRepos s q := by
  unfold pageRepos
  rw [h]

theorem ingestPage_eq (s : Snapshot) (q : ReposOverviewQuery) :
    ingestPage s q =
      { (pageRepos s q).foldl ingestRepo s with _name := some (getViewerName q) } := by
  unfold ingestPage
  dsimp only
  rw [foldl_ingestRepo_name]
  rfl

theorem foldl_ingestPage_eq (ps : List ReposOverviewQuery) (s : Snapshot) :
    ps.foldl ingestPage s =
      { ((ps.map (pageRepos s)).flatten).foldl ingestRepo s with _name := nameAfter s._name ps } := by
  induction ps generalizing s with
  | nil => rfl
  | cons q ps ih =>
    rw [List.foldl_cons, ih, ingestPage_eq]
    simp only [List.map_cons, List.flatten_cons, List.foldl_append, foldl_ingestRepo_name]
    have hc : ∀ p ∈ ps, pageRepos { (pageRepos s q).foldl ingestRepo s with
        _name := some (getViewerName q) } p = pageRepos s p := by
      intro p _
      apply pageRepos_congr
      exact (foldl_ingestRepo_config _ s).2.2.2
    rw [List.map_congr_left hc]
    rfl

theorem statsLoop_eq (pages : List ReposOverviewQuery) (s : Snapshot) (rc cc : GoString)
    (reqs : List QueryVars) :
    statsLoop s rc cc reqs pages =
      (consumedPages pages).map (fun ps =>
        (ps.foldl ingestPage s,
          { pages := pages.drop ps.length, requests := reqs ++ loopRequests rc cc ps })) := by
  induction pages generalizing s rc cc reqs with
  | nil => rfl
  | cons q rest ih =>
    unfold statsLoop consumedPages
    dsimp only
    by_cases h : lastPage q = true
    · simp [h, loopRequests]
    · simp only [h, if_false, Bool.false_eq_true]
      rw [ih]
      cases consumedPages rest with
      | none => rfl
      | some ps => simp [loopRequests]

theorem getStats_eq (s : Snapshot) (remote : Remote) :
    getStats s remote =
      (consumedPages remote.pages).map (fun ps =>
        (finishStats (((ps.map (pageRepos s)).flatten).foldl ingestRepo (initStats s))
            (nameAfter s._name ps),
          { pages := remote.pages.drop ps.length,
            requests := remote.requests ++ loopRequests [] [] ps })) := by
  unfold getStats
  rw [statsLoop_eq]
  cases consumedPages remote.pages with
  | none => rfl
  | some ps =>
    simp only [Option.map_some']
    rw [foldl_ingestPage_eq]
    have hc : ∀ p ∈ ps, pageRepos (initStats s) p = pageRepos s p := by
      intro p _
      apply pageRepos_congr
      unfold initStats
      dsimp only
      split_ifs <;> rfl
    have hn : (initStats s)._name = s._name := by
      unfold initStats
      dsimp only
      split_ifs <;> rfl
    rw [List.map_congr_left hc, hn]
    rfl


/-! #### Go maps -/

theorem mapGet_eq_none {β : Type} (m : List (GoString × β)) (k : GoString) :
    mapGet m k = none ↔ ∀ kv ∈ m, kv.1 ≠ k := by
  induction m with
  | nil =>
    constructor
    · intro _ kv hkv
      cases hkv
    · intro _
      rfl
  | cons kv m ih =>
    obtain ⟨k', v⟩ := kv
    unfold mapGet
    by_cases h : k' = k
    · simp only [h, if_true]
      constructor
      · intro hc
        cases hc
      · intro hc
        exact absurd rfl (hc (k, v) (List.mem_cons_self _ _))
    · simp only [h, if_false]
      rw [ih]
      constructor
      · intro hc kv hkv
        rcases List.mem_cons.1 hkv with hkv | hkv
        · rw [hkv]
          exact h
        · exact hc kv hkv
      · intro hc kv hkv
        exact hc kv (List.mem_cons_of_mem _ hkv)

theorem mapSet_of_none {β : Type} (m : List (GoString × β)) (k : GoString) (v : β)
    (h : mapGet m k = none) : mapSet m k v = m ++ [(k, v)] := by
  induction m with
  | nil => rfl
  | cons kv m ih =>
    obtain ⟨k', v'⟩ := kv
    unfold mapGet at h
    unfold mapSet
    by_cases hk : k' = k
    · simp [hk] at h
    · simp only [hk, if_false] at h ⊢
      rw [ih h]
      rfl

theorem mapGet_mapSet_same {β : Type} (m : List (GoString × β)) (k : GoString) (v : β) :
    mapGet (mapSet m k v) k = some v := by
  induction m with
  | nil => simp [mapSet, mapGet]
  | cons kv m ih =>
    obtain ⟨k', v'⟩ := kv
    unfold mapSet
    by_cases hk : k' = k
    · simp [hk, mapGet]
    · simp [hk, mapGet, ih]

theorem mapGet_mapSet_ne {β : Type} (m : List (GoString × β)) (k k' : GoString) (v : β)
    (h : k ≠ k') : mapGet (mapSet m k v) k' = mapGet m k' := by
  induction m with
  | nil => simp [mapSet, mapGet, h]
  | cons kv m ih =>
    obtain ⟨k'', v'⟩ := kv
    unfold mapSet
    by_cases hk : k'' = k
    · subst hk
      simp [mapGet, h]
    · by_cases hk' : k'' = k'
      · subst hk'
        simp [hk, mapGet]
      · simp [hk, hk', mapGet, ih]

theorem mapSet_keys {β : Type} (m : List (GoString × β)) (k : GoString) (v : β) :
    ∀ kv ∈ mapSet m k v, kv = (k, v) ∨ kv ∈ m := by
  induction m with
  | nil => simp [mapSet]
  | cons kv m ih =>
    obtain ⟨k', v'⟩ := kv
    unfold mapSet
    by_cases hk : k' = k
    · subst hk
      intro x hx
      simp only [if_true, List.mem_cons] at hx
      rcases hx with hx | hx
      · exact Or.inl hx
      · exact Or.inr (List.mem_cons_of_mem _ hx)
    · intro x hx
      simp only [hk, if_false, List.mem_cons] at hx
      rcases hx with hx | hx
      · exact Or.inr (by rw [hx]; exact List.mem_cons_self _ _)
      · rcases ih x hx with h | h
        · exact Or.inl h
        · exact Or.inr (List.mem_cons_of_mem _ h)

theorem mapGet_mem {β : Type} (m : List (GoString × β)) (k : GoString) (v : β)
    (h : mapGet m k = some v) : (k, v) ∈ m := by
  induction m with
  | nil => simp [mapGet] at h
  | cons kv m ih =>
    obtain ⟨k', v'⟩ := kv
    unfold mapGet at h
    by_cases hk : k' = k
    · simp only [hk, if_true, Option.some.injEq] at h
      rw [hk, h]
      exact List.mem_cons_self _ _
    · simp only [hk, if_false] at h
      exact List.mem_cons_of_mem _ (ih h)

theorem filter_key_of_nodup {β : Type} (m : List (GoString × β)) (k : GoString) (v : β)
    (hn : (m.map Prod.fst).Nodup) (h : mapGet m k = some v) :
    (m.filter (fun kv => decide (kv.1 = k))).length = 1 := by
  induction m with
  | nil => simp [mapGet] at h
  | cons kv m ih =>
    obtain ⟨k', v'⟩ := kv
    rw [List.map_cons, List.nodup_cons] at hn
    by_cases hk : k' = k
    · subst hk
      have hnone : ∀ x ∈ m, decide (x.1 = k') = false := by
        intro x hx
        apply decide_eq_false
        intro hxk
        have hmem : x.1 ∈ m.map Prod.fst := List.mem_map_of_mem Prod.fst hx
        rw [hxk] at hmem
        exact hn.1 hmem
      have hfil : m.filter (fun kv => decide (kv.1 = k')) = [] :=
        List.filter_eq_nil_iff.2 (fun x hx => by simp [hnone x hx])
      simp [List.filter_cons, hfil]
    · unfold mapGet at h
      simp only [hk, if_false] at h
      simp only [List.filter_cons, hk, decide_False, Bool.false_eq_true, if_false]
      exact ih hn.2 h

/-! #### The repository loop -/

theorem countRepo_repos (st : Snapshot) (r : RepoWithLanguages) :
    (countRepo st r)._repos = some (mapSet (st._repos.getD []) r.NameWithOwner r) := by
  unfold countRepo parseRepoLanguages
  dsimp only
  split_ifs <;> rfl

theorem ingestRepo_of_seen (st : Snapshot) (r : RepoWithLanguages)
    (h : (mapGet (st._repos.getD []) r.NameWithOwner).isSome = true) : ingestRepo st r = st := by
  unfold ingestRepo
  simp [h]

theorem ingestRepo_of_fork (st : Snapshot) (r : RepoWithLanguages)
    (hf : r.IsFork = true) (hflag : st.includeForkedRepos = false) : ingestRepo st r = st := by
  unfold ingestRepo
  simp [hf, hflag]

theorem ingestRepo_of_excluded (st : Snapshot) (r : RepoWithLanguages)
    (h : r.NameWithOwner ∈ st.excludedRepos) : ingestRepo st r = st := by
  unfold ingestRepo
  simp [h]

theorem ingestRepo_of_new (st : Snapshot) (r : RepoWithLanguages)
    (hex : r.NameWithOwner ∉ st.excludedRepos)
    (hnew : mapGet (st._repos.getD []) r.NameWithOwner = none)
    (hf : r.IsFork = false ∨ st.includeForkedRepos = true) :
    ingestRepo st r = countRepo st r := by
  unfold ingestRepo
  rcases hf with hf | hf <;> simp [hex, hnew, hf]

theorem ingestRepo_cases (st : Snapshot) (r : RepoWithLanguages) :
    ingestRepo st r = st ∨
      (ingestRepo st r = countRepo st r ∧ r.NameWithOwner ∉ st.excludedRepos ∧
        mapGet (st._repos.getD []) r.NameWithOwner = none ∧
        (r.IsFork = false ∨ st.includeForkedRepos = true)) := by
  by_cases hex : r.NameWithOwner ∈ st.excludedRepos
  · exact Or.inl (ingestRepo_of_excluded st r hex)
  · by_cases hs : (mapGet (st._repos.getD []) r.NameWithOwner).isSome = true
    · exact Or.inl (ingestRepo_of_seen st r hs)
    · have hnone : mapGet (st._repos.getD []) r.NameWithOwner = none := by
        cases hm : mapGet (st._repos.getD []) r.NameWithOwner with
        | none => rfl
        | some v => simp [hm] at hs
      by_cases hf : r.IsFork = true ∧ st.includeForkedRepos = false
      · exact Or.inl (ingestRepo_of_fork st r hf.1 hf.2)
      · have hf' : r.IsFork = false ∨ st.includeForkedRepos = true := by
          cases h1 : r.IsFork <;> cases h2 : st.includeForkedRepos <;> simp_all
        exact Or.inr ⟨ingestRepo_of_new st r hex hnone hf', hex, hnone, hf'⟩

theorem ingestRepo_mapGet_ne (st : Snapshot) (r : RepoWithLanguages) (k : GoString)
    (h : r.NameWithOwner ≠ k) :
    mapGet ((ingestRepo st r)._repos.getD []) k = mapGet (st._repos.getD []) k := by
  rcases ingestRepo_cases st r with h0 | ⟨h1, _, _, _⟩
  · rw [h0]
  · rw [h1, countRepo_repos]
    exact mapGet_mapSet_ne _ _ _ _ h

theorem ingestRepo_mapGet_some (st : Snapshot) (r : RepoWithLanguages) (k : GoString)
    (v : RepoWithLanguages) (h : mapGet (st._repos.getD []) k = some v) :
    mapGet ((ingestRepo st r)._repos.getD []) k = some v := by
  by_cases hk : r.NameWithOwner = k
  · rw [ingestRepo_of_seen st r (by rw [hk, h]; rfl)]
    exact h
  · rw [ingestRepo_mapGet_ne st r k hk]
    exact h

theorem foldl_ingestRepo_mapGet_some (rs : List RepoWithLanguages) (st : Snapshot)
    (k : GoString) (v : RepoWithLanguages) (h : mapGet (st._repos.getD []) k = some v) :
    mapGet ((rs.foldl ingestRepo st)._repos.getD []) k = some v := by
  induction rs generalizing st with
  | nil => exact h
  | cons r rs ih => exact ih (ingestRepo st r) (ingestRepo_mapGet_some st r k v h)

theorem foldl_ingestRepo_mapGet_ne (rs : List RepoWithLanguages) (st : Snapshot)
    (k : GoString) (h : ∀ x ∈ rs, x.NameWithOwner ≠ k) :
    mapGet ((rs.foldl ingestRepo st)._repos.getD []) k = mapGet (st._repos.getD []) k := by
  induction rs generalizing st with
  | nil => rfl
  | cons r rs ih =>
    rw [List.foldl_cons, ih (ingestRepo st r) (fun x hx => h x (List.mem_cons_of_mem _ hx))]
    exact ingestRepo_mapGet_ne st r k (h r (List.mem_cons_self _ _))

theorem foldl_ingestRepo_filter_seen (rs : List RepoWithLanguages) (st : Snapshot)
    (k : GoString) (v : RepoWithLanguages) (h : mapGet (st._repos.getD []) k = some v) :
    rs.foldl ingestRepo st =
      (rs.filter (fun x => decide (x.NameWithOwner ≠ k))).foldl ingestRepo st := by
  induction rs generalizing st with
  | nil => rfl
  | cons r rs ih =>
    by_cases hk : r.NameWithOwner = k
    · have hno : ingestRepo st r = st := ingestRepo_of_seen st r (by rw [hk, h]; rfl)
      simp only [List.foldl_cons, hno, List.filter_cons, hk, ne_eq, not_true_eq_false,
        decide_False, Bool.false_eq_true, if_false]
      exact ih st h
    · simp only [List.foldl_cons, List.filter_cons, hk, ne_eq, not_false_eq_true, decide_True,
        if_true]
      exact ih (ingestRepo st r) (ingestRepo_mapGet_some st r k v h)

theorem ingestRepo_nodup (st : Snapshot) (r : RepoWithLanguages)
    (h : ((st._repos.getD []).map Prod.fst).Nodup) :
    (((ingestRepo st r)._repos.getD []).map Prod.fst).Nodup := by
  rcases ingestRepo_cases st r with h0 | ⟨h1, _, hnone, _⟩
  · rw [h0]
    exact h
  · rw [h1, countRepo_repos, Option.getD_some, mapSet_of_none _ _ _ hnone, List.map_append]
    apply List.Nodup.append h (List.nodup_singleton _)
    intro k hk1 hk2
    simp only [List.map_cons, List.map_nil, List.mem_singleton] at hk2
    obtain ⟨kv, hkv, hkv'⟩ := List.mem_map.1 hk1
    exact (mapGet_eq_none _ _).1 hnone kv hkv (hkv'.trans hk2)

theorem foldl_ingestRepo_nodup (rs : List RepoWithLanguages) (st : Snapshot)
    (h : ((st._repos.getD []).map Prod.fst).Nodup) :
    (((rs.foldl ingestRepo st)._repos.getD []).map Prod.fst).Nodup := by
  induction rs generalizing st with
  | nil => exact h
  | cons r rs ih => exact ih (ingestRepo st r) (ingestRepo_nodup st r h)

theorem ingestRepo_forks (st : Snapshot) (r : RepoWithLanguages)
    (hflag : st.includeForkedRepos = false)
    (h : ∀ kv ∈ st._repos.getD [], kv.2.IsFork = false) :
    ∀ kv ∈ (ingestRepo st r)._repos.getD [], kv.2.IsFork = false := by
  rcases ingestRepo_cases st r with h0 | ⟨h1, _, _, hf⟩
  · rw [h0]
    exact h
  · rw [h1, countRepo_repos, Option.getD_some]
    intro kv hkv
    rcases mapSet_keys _ _ _ kv hkv with hkv | hkv
    · rw [hkv]
      rcases hf with hf | hf
      · exact hf
      · rw [hflag] at hf
        exact absurd hf (by decide)
    · exact h kv hkv

theorem foldl_ingestRepo_forks (rs : List RepoWithLanguages) (st : Snapshot)
    (hflag : st.includeForkedRepos = false)
    (h : ∀ kv ∈ st._repos.getD [], kv.2.IsFork = false) :
    ∀ kv ∈ (rs.foldl ingestRepo st)._repos.getD [], kv.2.IsFork = false := by
  induction rs generalizing st with
  | nil => exact h
  | cons r rs ih =>
    exact ih (ingestRepo st r) ((ingestRepo_config st r).2.2.1.trans hflag)
      (ingestRepo_forks st r hflag h)

theorem initStats_config (s : Snapshot) :
    (initStats s).excludedRepos = s.excludedRepos ∧
    (initStats s).excludedLangs = s.excludedLangs ∧
    (initStats s).includeForkedRepos = s.includeForkedRepos ∧
    (initStats s).includeExternalRepos = s.includeExternalRepos ∧
    (initStats s)._repos = some [] ∧ (initStats s)._languages = s._languages := by
  unfold initStats
  dsimp only
  split_ifs <;> exact ⟨rfl, rfl, rfl, rfl, rfl, rfl⟩


theorem getStats_some (s s' : Snapshot) (remote remote' : Remote)
    (h : getStats s remote = some (s', remote')) :
    s' = finishStats ((processedRepos s remote.pages).foldl ingestRepo (initStats s)) s'._name := by
  rw [getStats_eq] at h
  unfold processedRepos
  cases hc : consumedPages remote.pages with
  | none => simp [hc] at h
  | some ps =>
    simp only [hc, Option.map_some', Option.some.injEq, Prod.mk.injEq] at h
    rw [← h.1]
    rfl

theorem finishStats_repos (st : Snapshot) (n : Option GoString) :
    (finishStats st n)._repos = st._repos := rfl


theorem lastPage_of_agree (q q' : ReposOverviewQuery) (h : agreeButContribNodes q q') :
    lastPage q = lastPage q' := by
  unfold lastPage
  rw [h.1, h.2]

theorem consumedPages_agree (pages1 pages2 : List ReposOverviewQuery)
    (h : List.Forall₂ agreeButContribNodes pages1 pages2) :
    (consumedPages pages1 = none ∧ consumedPages pages2 = none) ∨
      ∃ c1 c2, consumedPages pages1 = some c1 ∧ consumedPages pages2 = some c2 ∧
        List.Forall₂ agreeButContribNodes c1 c2 := by
  induction h with
  | nil => exact Or.inl ⟨rfl, rfl⟩
  | @cons q q' l1 l2 hq _ ih =>
    unfold consumedPages
    rw [← lastPage_of_agree q q' hq]
    by_cases hl : lastPage q = true
    · simp only [hl, if_true]
      exact Or.inr ⟨[q], [q'], rfl, rfl, List.Forall₂.cons hq List.Forall₂.nil⟩
    · simp only [hl, if_false, Bool.false_eq_true]
      rcases ih with ⟨h1, h2⟩ | ⟨c1, c2, h1, h2, h3⟩
      · left
        rw [h1, h2]
        exact ⟨rfl, rfl⟩
      · right
        rw [h1, h2]
        exact ⟨q :: c1, q' :: c2, rfl, rfl, List.Forall₂.cons hq h3⟩

theorem pageRepos_agree (s : Snapshot) (hext : s.includeExternalRepos = false)
    (c1 c2 : List ReposOverviewQuery) (h : List.Forall₂ agreeButContribNodes c1 c2) :
    (c1.map (pageRepos s)).flatten = (c2.map (pageRepos s)).flatten := by
  induction h with
  | nil => rfl
  | @cons q q' l1 l2 hq _ ih =>
    simp only [List.map_cons, List.flatten_cons, ih]
    unfold pageRepos
    simp only [hext, Bool.false_eq_true, if_false]
    rw [hq.1]

theorem loopRequests_agree (c1 c2 : List ReposOverviewQuery)
    (h : List.Forall₂ agreeButContribNodes c1 c2) (rc cc : GoString) :
    loopRequests rc cc c1 = loopRequests rc cc c2 := by
  induction h generalizing rc cc with
  | nil => rfl
  | @cons q q' l1 l2 hq _ ih =>
    unfold loopRequests
    rw [hq.1, hq.2, ih]


/-! #### Languages -/

theorem countRepo_languages (st : Snapshot) (r : RepoWithLanguages) :
    (countRepo st r)._languages =
      some (r.Languages.Edges.foldl (parseLangEdge st.excludedLangs) (st._languages.getD [])) := by
  unfold countRepo parseRepoLanguages
  dsimp only
  cases hl : st._languages <;> split_ifs <;> rfl

/-- A property of the language entries that one edge preserves is preserved by
the whole repository loop. -/
theorem foldl_ingestRepo_languages (P : List (GoString × LangInfo) → Prop)
    (ex : List GoString)
    (hstep : ∀ langs e, P langs → P (parseLangEdge ex langs e))
    (rs : List RepoWithLanguages) (st : Snapshot) (hex : st.excludedLangs = ex)
    (h : P (st._languages.getD [])) :
    P ((rs.foldl ingestRepo st)._languages.getD []) := by
  induction rs generalizing st with
  | nil => exact h
  | cons r rs ih =>
    apply ih (ingestRepo st r) ((ingestRepo_config st r).2.1.trans hex)
    rcases ingestRepo_cases st r with h0 | ⟨h1, _, _, _⟩
    · rw [h0]
      exact h
    · rw [h1, countRepo_languages, Option.getD_some, hex]
      generalize st._languages.getD [] = langs at h
      induction r.Languages.Edges generalizing langs with
      | nil => exact h
      | cons e es ihe => exact ihe _ (hstep langs e h)

theorem parseLangEdge_prop_zero (ex : List GoString) (langs : List (GoString × LangInfo))
    (e : LangEdge) (h : ∀ kv ∈ langs, kv.2.Prop_ = 0) :
    ∀ kv ∈ parseLangEdge ex langs e, kv.2.Prop_ = 0 := by
  unfold parseLangEdge
  dsimp only
  by_cases hx : ToLower e.Node.Name ∈ ex
  · simp only [hx, if_true]
    exact h
  · simp only [hx, if_false]
    cases hm : mapGet langs e.Node.Name with
    | some entry =>
      intro kv hkv
      rcases mapSet_keys _ _ _ kv hkv with hkv | hkv
      · rw [hkv]
        exact h (e.Node.Name, entry) (mapGet_mem _ _ _ hm)
      · exact h kv hkv
    | none =>
      intro kv hkv
      rcases mapSet_keys _ _ _ kv hkv with hkv | hkv
      · rw [hkv]
      · exact h kv hkv

theorem totalSize_setProps (m : List (GoString × LangInfo)) :
    totalSize ((setProps (some m)).getD []) = totalSize m := by
  unfold setProps totalSize
  simp only [Option.getD_some, List.map_map]
  congr 1
  apply List.map_congr_left
  intro kv _
  simp only [Function.comp]
  split_ifs <;> rfl

theorem sum_shares (m : List (GoString × LangInfo)) (t : ℚ) :
    (m.map (fun kv => (kv.2.Size : ℚ) * 100 / t)).sum =
      (((m.map (fun kv => kv.2.Size)).sum : Int) : ℚ) * 100 / t := by
  induction m with
  | nil => simp
  | cons kv m ih =>
    simp only [List.map_cons, List.sum_cons, ih, Int.cast_add]
    ring

/-! #### The pagination loop -/


theorem lastPage_eq_true (q : ReposOverviewQuery) :
    lastPage q = true ↔
      q.Viewer.Repositories.PageInfo.HasNextPage = false ∧
        q.Viewer.RepositoriesContributedTo.PageInfo.HasNextPage = false := by
  unfold lastPage
  cases q.Viewer.Repositories.PageInfo.HasNextPage <;>
    cases q.Viewer.RepositoriesContributedTo.PageInfo.HasNextPage <;> simp

theorem lastPage_eq_false (q : ReposOverviewQuery) :
    lastPage q = false ↔
      q.Viewer.Repositories.PageInfo.HasNextPage = true ∨
        q.Viewer.RepositoriesContributedTo.PageInfo.HasNextPage = true := by
  unfold lastPage
  cases q.Viewer.Repositories.PageInfo.HasNextPage <;>
    cases q.Viewer.RepositoriesContributedTo.PageInfo.HasNextPage <;> simp

theorem consumedPages_append (pre : List ReposOverviewQuery) (p : ReposOverviewQuery)
    (post : List ReposOverviewQuery) (hpre : ∀ q ∈ pre, lastPage q = false)
    (hp : lastPage p = true) : consumedPages (pre ++ p :: post) = some (pre ++ [p]) := by
  induction pre with
  | nil => simp [consumedPages, hp]
  | cons q pre ih =>
    have hq : lastPage q = false := hpre q (List.mem_cons_self _ _)
    have ih' := ih (fun x hx => hpre x (List.mem_cons_of_mem _ hx))
    rw [List.cons_append, consumedPages]
    simp only [hq, Bool.false_eq_true, if_false]
    rw [ih']
    rfl

theorem consumedPages_some (pages ps : List ReposOverviewQuery)
    (h : consumedPages pages = some ps) :
    ∃ pre p, ps = pre ++ [p] ∧ pages = pre ++ p :: pages.drop ps.length ∧
      (∀ q ∈ pre, lastPage q = false) ∧ lastPage p = true := by
  induction pages generalizing ps with
  | nil => simp [consumedPages] at h
  | cons q rest ih =>
    unfold consumedPages at h
    by_cases hq : lastPage q = true
    · simp only [hq, if_true, Option.some.injEq] at h
      subst h
      refine ⟨[], q, rfl, rfl, ?_, hq⟩
      intro x hx
      cases hx
    · simp only [hq, if_false, Bool.false_eq_true] at h
      cases hc : consumedPages rest with
      | none => simp [hc] at h
      | some ps' =>
        rw [hc] at h
        simp only [Option.map_some', Option.some.injEq] at h
        subst h
        obtain ⟨pre, p, h1, h2, h3, h4⟩ := ih ps' hc
        refine ⟨q :: pre, p, by rw [h1]; rfl, ?_, ?_, h4⟩
        · simp only [List.length_cons, List.drop_succ_cons, List.cons_append]
          rw [← h2]
        · intro x hx
          rcases List.mem_cons.1 hx with hx | hx
          · rw [hx]
            simpa using hq
          · exact h3 x hx

theorem loopRequests_length (ps : List ReposOverviewQuery) (rc cc : GoString) :
    (loopRequests rc cc ps).length = ps.length := by
  induction ps generalizing rc cc with
  | nil => rfl
  | cons q ps ih => simp [loopRequests, ih]

theorem reposOverview_eq (rc cc : GoString) :
    reposOverview (StringPtrOrNil rc) (StringPtrOrNil cc) =
      { repoCursor := rc, contribCursor := cc } := by
  unfold reposOverview StringPtrOrNil
  by_cases h1 : rc = [] <;> by_cases h2 : cc = [] <;> simp [h1, h2]

theorem servedResponses_length (login name : GoString) (cursor : Nat → GoString)
    (owned contrib : List RepoWithLanguages) (count : Nat) :
    ∀ i, (servedResponses login name cursor owned contrib i count).length = count := by
  induction count with
  | zero =>
    intro i
    rfl
  | succ count ih =>
    intro i
    simp [servedResponses, ih]

theorem servedResponses_requests (login name : GoString) (cursor : Nat → GoString)
    (owned contrib : List RepoWithLanguages) (count : Nat) :
    ∀ i rc cc,
      loopRequests rc cc (servedResponses login name cursor owned contrib i (count + 1)) =
        { repoCursor := rc, contribCursor := cc } ::
          (List.range' (i + 1) count).map
            (fun j => { repoCursor := cursor (100 * j), contribCursor := cursor (100 * j) }) := by
  induction count with
  | zero =>
    intro i rc cc
    simp [servedResponses, loopRequests, reposOverview_eq]
  | succ count ih =>
    intro i rc cc
    rw [servedResponses, loopRequests, reposOverview_eq, ih]
    simp [servedPage, List.range'_succ]

theorem servedResponses_consumed (login name : GoString) (cursor : Nat → GoString)
    (owned contrib : List RepoWithLanguages) (N : Nat) (ho : owned.length = N)
    (hc : contrib.length = N) (count : Nat) :
    ∀ i, i < (N + 99) / 100 → (N + 99) / 100 ≤ i + count →
      consumedPages (servedResponses login name cursor owned contrib i count) =
        some (servedResponses login name cursor owned contrib i ((N + 99) / 100 - i)) := by
  induction count with
  | zero =>
    intro i h1 h2
    omega
  | succ count ih =>
    intro i h1 h2
    unfold servedResponses consumedPages
    by_cases hlast : 100 * (i + 1) < N
    · have hl : lastPage { Viewer :=
          { Login := login, Name := name, Repositories := servedPage cursor owned i,
            RepositoriesContributedTo := servedPage cursor contrib i } } = false := by
        simp [lastPage, servedPage, ho, hlast]
      simp only [hl, Bool.false_eq_true, if_false]
      rw [ih (i + 1) (by omega) (by omega)]
      obtain ⟨a, ha⟩ : ∃ a, (N + 99) / 100 - i = a + 1 := ⟨(N + 99) / 100 - i - 1, by omega⟩
      have ha' : (N + 99) / 100 - (i + 1) = a := by omega
      rw [ha, ha']
      rfl
    · have hl : lastPage { Viewer :=
          { Login := login, Name := name, Repositories := servedPage cursor owned i,
            RepositoriesContributedTo := servedPage cursor contrib i } } = true := by
        simp [lastPage, servedPage, ho, hc, hlast]
      simp only [hl, if_true]
      have ha : (N + 99) / 100 - i = 0 + 1 := by omega
      rw [ha]
      rfl


/-! #### Language exclusion -/

theorem listedIn_iff (value name : GoString) :
    listedIn value name = true ↔ ToLower name ∈ GetListEnv (some value) := by
  rw [mem_GetListEnv]
  unfold listedIn
  simp only [List.any_eq_true, Bool.and_eq_true, decide_eq_true_eq]

theorem parseLangEdge_of_excluded (ex : List GoString) (langs : List (GoString × LangInfo))
    (e : LangEdge) (h : ToLower e.Node.Name ∈ ex) : parseLangEdge ex langs e = langs := by
  unfold parseLangEdge
  simp [h]

theorem foldl_parseLangEdge_filter (ex : List GoString) (p : GoString → Bool)
    (hp : ∀ name, p name = true → ToLower name ∈ ex) (edges : List LangEdge)
    (langs : List (GoString × LangInfo)) :
    (edges.filter (fun e => !p e.Node.Name)).foldl (parseLangEdge ex) langs =
      edges.foldl (parseLangEdge ex) langs := by
  induction edges generalizing langs with
  | nil => rfl
  | cons e es ih =>
    by_cases he : p e.Node.Name = true
    · simp only [List.filter_cons, he, Bool.not_true, Bool.false_eq_true, if_false,
        List.foldl_cons, parseLangEdge_of_excluded ex langs e (hp _ he)]
      exact ih langs
    · have he' : p e.Node.Name = false := by simpa using he
      simp only [List.filter_cons, he', Bool.not_false, if_true, List.foldl_cons]
      exact ih _

theorem parseLangEdge_keys (ex : List GoString) (langs : List (GoString × LangInfo))
    (e : LangEdge) (h : ∀ kv ∈ langs, ToLower kv.1 ∉ ex) :
    ∀ kv ∈ parseLangEdge ex langs e, ToLower kv.1 ∉ ex := by
  unfold parseLangEdge
  dsimp only
  by_cases hx : ToLower e.Node.Name ∈ ex
  · simp only [hx, if_true]
    exact h
  · simp only [hx, if_false]
    cases hm : mapGet langs e.Node.Name with
    | some entry =>
      intro kv hkv
      rcases mapSet_keys _ _ _ kv hkv with hkv | hkv
      · rw [hkv]
        exact hx
      · exact h kv hkv
    | none =>
      intro kv hkv
      rcases mapSet_keys _ _ _ kv hkv with hkv | hkv
      · rw [hkv]
        exact hx
      · exact h kv hkv

theorem setProps_keys (langs : Option (List (GoString × LangInfo))) :
    ∀ kv ∈ (setProps langs).getD [], ∃ kv0 ∈ langs.getD [], kv.1 = kv0.1 := by
  cases langs with
  | none =>
    intro kv hkv
    cases hkv
  | some m =>
    intro kv hkv
    unfold setProps at hkv
    simp only [Option.getD_some] at hkv
    obtain ⟨kv0, hmem, hkv0⟩ := List.mem_map.1 hkv
    refine ⟨kv0, hmem, ?_⟩
    rw [← hkv0]
    split_ifs <;> rfl

theorem mapGet_mapValues {β γ : Type} (f : β → γ) (m : List (GoString × β)) (k : GoString) :
    mapGet (m.map (fun kv => (kv.1, f kv.2))) k = (mapGet m k).map f := by
  induction m with
  | nil => rfl
  | cons kv m ih =>
    obtain ⟨k', v⟩ := kv
    simp only [List.map_cons, mapGet]
    by_cases h : k' = k
    · simp [h]
    · simp [h, ih]

theorem mapSet_mapValues {β γ : Type} (f : β → γ) (m : List (GoString × β)) (k : GoString)
    (v : β) :
    mapSet (m.map (fun kv => (kv.1, f kv.2))) k (f v) =
      (mapSet m k v).map (fun kv => (kv.1, f kv.2)) := by
  induction m with
  | nil => rfl
  | cons kv m ih =>
    obtain ⟨k', v'⟩ := kv
    simp only [List.map_cons, mapSet]
    by_cases h : k' = k
    · simp [h]
    · simp [h, ih]

theorem ingestRepo_withoutLangs (p : GoString → Bool) (st : Snapshot) (r : RepoWithLanguages)
    (hp : ∀ name, p name = true → ToLower name ∈ st.excludedLangs) :
    ingestRepo (storedWithoutLangs p st) (withoutLangs p r) =
      storedWithoutLangs p (ingestRepo st r) := by
  have hget : mapGet ((storedWithoutLangs p st)._repos.getD []) r.NameWithOwner =
      (mapGet (st._repos.getD []) r.NameWithOwner).map (withoutLangs p) := by
    unfold storedWithoutLangs
    cases st._repos with
    | none => rfl
    | some m => exact mapGet_mapValues (withoutLangs p) m r.NameWithOwner
  have hset : some (mapSet ((storedWithoutLangs p st)._repos.getD []) r.NameWithOwner
        (withoutLangs p r)) =
      (some (mapSet (st._repos.getD []) r.NameWithOwner r)).map
        (fun m => m.map (fun kv => (kv.1, withoutLangs p kv.2))) := by
    unfold storedWithoutLangs
    cases st._repos with
    | none => rfl
    | some m =>
      simp only [Option.map_some', Option.getD_some]
      rw [mapSet_mapValues]
  have hlang := foldl_parseLangEdge_filter st.excludedLangs p hp r.Languages.Edges
    (st._languages.getD [])
  rcases ingestRepo_cases st r with h0 | ⟨h1, hex, hnone, hf⟩
  · rw [h0]
    by_cases hex : r.NameWithOwner ∈ st.excludedRepos
    · exact ingestRepo_of_excluded _ _ hex
    · by_cases hs : (mapGet (st._repos.getD []) r.NameWithOwner).isSome = true
      · apply ingestRepo_of_seen
        change (mapGet ((storedWithoutLangs p st)._repos.getD []) r.NameWithOwner).isSome = true
        rw [hget, Option.isSome_map']
        exact hs
      · by_cases hf : r.IsFork = true ∧ st.includeForkedRepos = false
        · exact ingestRepo_of_fork _ _ hf.1 hf.2
        · exfalso
          have hnone : mapGet (st._repos.getD []) r.NameWithOwner = none := by
            cases hm : mapGet (st._repos.getD []) r.NameWithOwner with
            | none => rfl
            | some v => simp [hm] at hs
          have hf' : r.IsFork = false ∨ st.includeForkedRepos = true := by
            cases h1 : r.IsFork <;> cases h2 : st.includeForkedRepos <;> simp_all
          have hcount := ingestRepo_of_new st r hex hnone hf'
          rw [h0] at hcount
          have hrepos := countRepo_repos st r
          rw [← hcount] at hrepos
          have hsome := mapGet_mapSet_same (st._repos.getD []) r.NameWithOwner r
          rw [hrepos, Option.getD_some, hsome] at hnone
          cases hnone
  · rw [h1]
    have hnew : ingestRepo (storedWithoutLangs p st) (withoutLangs p r) =
        countRepo (storedWithoutLangs p st) (withoutLangs p r) := by
      refine ingestRepo_of_new (storedWithoutLangs p st) (withoutLangs p r) hex ?_ hf
      change mapGet ((storedWithoutLangs p st)._repos.getD []) r.NameWithOwner = none
      rw [hget, hnone]
      rfl
    rw [hnew]
    unfold countRepo parseRepoLanguages
    dsimp only
    have hl : (match (storedWithoutLangs p st)._languages with
        | none => []
        | some m => m) = st._languages.getD [] := by
      unfold storedWithoutLangs
      cases st._languages <;> rfl
    have hl' : (match st._languages with
        | none => []
        | some m => m) = st._languages.getD [] := by
      cases st._languages <;> rfl
    have hedges : (withoutLangs p r).Languages.Edges =
        r.Languages.Edges.filter (fun e => !p e.Node.Name) := rfl
    have hstars : (withoutLangs p r).Stargazers.TotalCount = r.Stargazers.TotalCount := rfl
    have hname : (withoutLangs p r).NameWithOwner = r.NameWithOwner := rfl
    have hexl : (storedWithoutLangs p st).excludedLangs = st.excludedLangs := rfl
    rw [hl, hl', hedges, hstars, hname, hexl, hlang, hset]
    split_ifs <;> rfl


theorem foldl_ingestRepo_withoutLangs (p : GoString → Bool) (rs : List RepoWithLanguages)
    (st : Snapshot) (hp : ∀ name, p name = true → ToLower name ∈ st.excludedLangs) :
    (rs.map (withoutLangs p)).foldl ingestRepo (storedWithoutLangs p st) =
      storedWithoutLangs p (rs.foldl ingestRepo st) := by
  induction rs generalizing st with
  | nil => rfl
  | cons r rs ih =>
    rw [List.map_cons, List.foldl_cons, List.foldl_cons, ingestRepo_withoutLangs p st r hp]
    apply ih
    rw [(ingestRepo_config st r).2.1]
    exact hp

theorem consumedPages_withoutLangs (p : GoString → Bool) (pages : List ReposOverviewQuery) :
    consumedPages (pages.map (pageWithoutLangs p)) =
      (consumedPages pages).map (List.map (pageWithoutLangs p)) := by
  induction pages with
  | nil => rfl
  | cons q rest ih =>
    have hl : lastPage (pageWithoutLangs p q) = lastPage q := rfl
    rw [List.map_cons, consumedPages, consumedPages, hl, ih]
    by_cases h : lastPage q = true
    · simp [h]
    · simp only [h, if_false, Bool.false_eq_true]
      cases consumedPages rest <;> rfl

theorem pageRepos_withoutLangs (p : GoString → Bool) (s : Snapshot)
    (ps : List ReposOverviewQuery) :
    ((ps.map (pageWithoutLangs p)).map (pageRepos s)).flatten =
      ((ps.map (pageRepos s)).flatten).map (withoutLangs p) := by
  induction ps with
  | nil => rfl
  | cons q ps ih =>
    simp only [List.map_cons, List.flatten_cons, List.map_append, ih]
    congr 1
    unfold pageRepos pageWithoutLangs
    split_ifs
    · simp only [List.map_append]
    · rfl

theorem loopRequests_withoutLangs (p : GoString → Bool) (ps : List ReposOverviewQuery)
    (rc cc : GoString) :
    loopRequests rc cc (ps.map (pageWithoutLangs p)) = loopRequests rc cc ps := by
  induction ps generalizing rc cc with
  | nil => rfl
  | cons q ps ih =>
    rw [List.map_cons, loopRequests, loopRequests, ← ih]
    rfl

theorem storedWithoutLangs_initStats (p : GoString → Bool) (s : Snapshot) :
    storedWithoutLangs p (initStats s) = initStats s := by
  unfold storedWithoutLangs initStats
  dsimp only
  split_ifs <;> rfl

/-- What the counting step adds: the record is stored under its identifier, its
stars are added when positive, its forks are added, and its language edges are
parsed into the language mapping. -/
theorem countRepo_totals (st : Snapshot) (r : RepoWithLanguages) :
    (countRepo st r)._repos = some (mapSet (st._repos.getD []) r.NameWithOwner r) ∧
    (countRepo st r)._stargazers =
      st._stargazers.map (fun n => n + max r.Stargazers.TotalCount 0) ∧
    (countRepo st r)._forks = st._forks.map (fun n => n + r.ForkCount) ∧
    (countRepo st r)._languages =
      some (r.Languages.Edges.foldl (parseLangEdge st.excludedLangs) (st._languages.getD [])) := by
  refine ⟨countRepo_repos st r, ?_, ?_, countRepo_languages st r⟩
  · unfold countRepo parseRepoLanguages
    dsimp only
    by_cases h : r.Stargazers.TotalCount > 0
    · simp only [h, if_true]
      rw [max_eq_left (le_of_lt h)]
    · simp only [h, if_false]
      rw [max_eq_right (not_lt.1 h)]
      cases st._stargazers <;> simp
  · unfold countRepo parseRepoLanguages
    dsimp only
    split_ifs <;> rfl


/-! #### When the pass runs -/

theorem ingestRepo_caches (st : Snapshot) (r : RepoWithLanguages)
    (h : st._stargazers ≠ none ∧ st._forks ≠ none ∧ st._repos ≠ none) :
    (ingestRepo st r)._stargazers ≠ none ∧ (ingestRepo st r)._forks ≠ none ∧
      (ingestRepo st r)._repos ≠ none := by
  rcases ingestRepo_cases st r with h0 | ⟨h1, _, _, _⟩
  · rw [h0]
    exact h
  · obtain ⟨t1, t2, t3, _⟩ := countRepo_totals st r
    rw [h1, t1, t2, t3]
    obtain ⟨a, ha⟩ := Option.ne_none_iff_exists'.1 h.1
    obtain ⟨b, hb⟩ := Option.ne_none_iff_exists'.1 h.2.1
    rw [ha, hb]
    simp

theorem foldl_ingestRepo_caches (rs : List RepoWithLanguages) (st : Snapshot)
    (h : st._stargazers ≠ none ∧ st._forks ≠ none ∧ st._repos ≠ none) :
    (rs.foldl ingestRepo st)._stargazers ≠ none ∧ (rs.foldl ingestRepo st)._forks ≠ none ∧
      (rs.foldl ingestRepo st)._repos ≠ none := by
  induction rs generalizing st with
  | nil => exact h
  | cons r rs ih => exact ih (ingestRepo st r) (ingestRepo_caches st r h)

theorem initStats_caches (s : Snapshot) :
    (initStats s)._stargazers ≠ none ∧ (initStats s)._forks ≠ none ∧
      (initStats s)._repos ≠ none := by
  unfold initStats
  dsimp only
  refine ⟨?_, ?_, ?_⟩
  · cases h : s._stargazers <;> split_ifs <;> simp_all
  · cases h : s._forks <;> split_ifs <;> simp_all
  · simp

/-- After a pass that returns, the name, the two totals and the repository
mapping exist: `GetName`, `GetStargazers`, `GetForks` and `GetRepos` do not run
the pass again. -/
theorem getStats_caches (s s' : Snapshot) (remote remote' : Remote)
    (h : getStats s remote = some (s', remote')) :
    s'._name ≠ none ∧ s'._stargazers ≠ none ∧ s'._forks ≠ none ∧ s'._repos ≠ none := by
  rw [getStats_eq] at h
  cases hc : consumedPages remote.pages with
  | none => simp [hc] at h
  | some ps =>
    simp only [hc, Option.map_some', Option.some.injEq, Prod.mk.injEq] at h
    obtain ⟨pre, p, hps, _, _, _⟩ := consumedPages_some remote.pages ps hc
    have hfold := foldl_ingestRepo_caches ((ps.map (pageRepos s)).flatten) (initStats s)
      (initStats_caches s)
    rw [← h.1]
    refine ⟨?_, hfold.1, hfold.2.1, hfold.2.2⟩
    change nameAfter s._name ps ≠ none
    rw [hps]
    unfold nameAfter
    rw [List.foldl_append]
    simp

/-- The accessors keep the caches consistent, and a fresh snapshot has them
consistent: in every state the accessors can reach, `getStats` starts without a
language mapping. -/
theorem cachesConsistent_reachable :
    (∀ user exR exL f e p, cachesConsistent (NewSnapshot user exR exL f e p)) ∧
    (∀ s remote, cachesConsistent s →
      (∀ v s' remote', GetName s remote = some (v, s', remote') → cachesConsistent s') ∧
      (∀ v s' remote', GetStargazers s remote = some (v, s', remote') → cachesConsistent s') ∧
      (∀ v s' remote', GetForks s remote = some (v, s', remote') → cachesConsistent s') ∧
      (∀ v s' remote', GetRepos s remote = some (v, s', remote') → cachesConsistent s') ∧
      (∀ v s' remote', GetLanguages s remote = some (v, s', remote') → cachesConsistent s')) ∧
    (∀ s, cachesConsistent s →
      (s._name = none ∨ s._stargazers = none ∨ s._forks = none ∨ s._repos = none ∨
        s._languages = none) → s._languages = none) := by
  have hgs : ∀ s s' remote remote', getStats s remote = some (s', remote') →
      cachesConsistent s' := fun s s' remote remote' h _ => getStats_caches s s' remote remote' h
  refine ⟨?_, ?_, ?_⟩
  · intro user exR exL f e p h
    exact absurd rfl h
  · intro s remote hs
    refine ⟨?_, ?_, ?_, ?_, ?_⟩
    · intro v s' remote' h
      unfold GetName at h
      cases hn : s._name with
      | some n =>
        simp only [hn, Option.some.injEq, Prod.mk.injEq] at h
        rw [← h.2.1]
        exact hs
      | none =>
        simp only [hn] at h
        cases hg : getStats s remote with
        | none => simp [hg] at h
        | some x =>
          obtain ⟨t, r⟩ := x
          simp only [hg, Option.map_eq_some'] at h
          obtain ⟨_, _, heq⟩ := h
          simp only [Prod.mk.injEq] at heq
          rw [← heq.2.1]
          exact hgs s t remote r hg
    · intro v s' remote' h
      unfold GetStargazers at h
      cases hn : s._stargazers with
      | some n =>
        simp only [hn, Option.some.injEq, Prod.mk.injEq] at h
        rw [← h.2.1]
        exact hs
      | none =>
        simp only [hn] at h
        cases hg : getStats s remote with
        | none => simp [hg] at h
        | some x =>
          obtain ⟨t, r⟩ := x
          simp only [hg, Option.map_eq_some'] at h
          obtain ⟨_, _, heq⟩ := h
          simp only [Prod.mk.injEq] at heq
          rw [← heq.2.1]
          exact hgs s t remote r hg
    · intro v s' remote' h
      unfold GetForks at h
      cases hn : s._forks with
      | some n =>
        simp only [hn, Option.some.injEq, Prod.mk.injEq] at h
        rw [← h.2.1]
        exact hs
      | none =>
        simp only [hn] at h
        cases hg : getStats s remote with
        | none => simp [hg] at h
        | some x =>
          obtain ⟨t, r⟩ := x
          simp only [hg, Option.map_eq_some'] at h
          obtain ⟨_, _, heq⟩ := h
          simp only [Prod.mk.injEq] at heq
          rw [← heq.2.1]
          exact hgs s t remote r hg
    · intro v s' remote' h
      unfold GetRepos at h
      cases hn : s._repos with
      | some n =>
        simp only [hn, Option.some.injEq, Prod.mk.injEq] at h
        rw [← h.2.1]
        exact hs
      | none =>
        simp only [hn] at h
        cases hg : getStats s remote with
        | none => simp [hg] at h
        | some x =>
          obtain ⟨t, r⟩ := x
          simp only [hg, Option.some.injEq, Prod.mk.injEq] at h
          rw [← h.2.1]
          exact hgs s t remote r hg
    · intro v s' remote' h
      unfold GetLanguages at h
      cases hn : s._languages with
      | some n =>
        simp only [hn, Option.some.injEq, Prod.mk.injEq] at h
        rw [← h.2.1]
        exact hs
      | none =>
        simp only [hn] at h
        cases hg : getStats s remote with
        | none => simp [hg] at h
        | some x =>
          obtain ⟨t, r⟩ := x
          simp only [hg, Option.some.injEq, Prod.mk.injEq] at h
          rw [← h.2.1]
          exact hgs s t remote r hg
  · intro s hs hnone
    by_contra hl
    obtain ⟨h1, h2, h3, h4⟩ := hs hl
    rcases hnone with h | h | h | h | h
    · exact h1 h
    · exact h2 h
    · exact h3 h
    · exact h4 h
    · exact hl h

/-! #### Sizes and occurrence counts -/

theorem parseLangEdge_sizeAndCount (ex : List GoString) (langs : List (GoString × LangInfo))
    (e : LangEdge) (name : GoString) :
    sizeAndCount (parseLangEdge ex langs e) name =
      if e.Node.Name = name ∧ ToLower name ∉ ex then
        some (((sizeAndCount langs name).getD (0, 0)).1 + e.Size,
          ((sizeAndCount langs name).getD (0, 0)).2 + 1)
      else sizeAndCount langs name := by
  unfold parseLangEdge sizeAndCount
  dsimp only
  by_cases hname : e.Node.Name = name
  · subst hname
    by_cases hx : ToLower e.Node.Name ∈ ex
    · simp [hx]
    · simp only [hx, if_false, true_and, not_false_eq_true, if_true]
      cases hm : mapGet langs e.Node.Name with
      | some entry =>
        simp only [mapGet_mapSet_same, Option.map_some', Option.getD_some]
      | none =>
        simp only [mapGet_mapSet_same, Option.map_some', Option.map_none', Option.getD_none,
          zero_add]
  · simp only [hname, false_and, if_false]
    by_cases hx : ToLower e.Node.Name ∈ ex
    · simp only [hx, if_true]
    · simp only [hx, if_false]
      cases hm : mapGet langs e.Node.Name with
      | some entry =>
        simp only [mapGet_mapSet_ne _ _ _ _ hname]
      | none =>
        simp only [mapGet_mapSet_ne _ _ _ _ hname]

theorem tally_append_singleton (F : List LangEdge) (e : LangEdge) :
    tally (F ++ [e]) =
      some (((tally F).getD (0, 0)).1 + e.Size, ((tally F).getD (0, 0)).2 + 1) := by
  unfold tally
  cases F with
  | nil => simp
  | cons f F => simp [List.sum_append, add_assoc]

theorem foldl_parseLangEdge_tally (ex : List GoString) (name : GoString)
    (E : List LangEdge) (langs : List (GoString × LangInfo)) (F : List LangEdge)
    (h : sizeAndCount langs name = tally F) :
    sizeAndCount (E.foldl (parseLangEdge ex) langs) name =
      tally (F ++ E.filter
        (fun e => decide (e.Node.Name = name) && decide (ToLower name ∉ ex))) := by
  induction E generalizing langs F with
  | nil => simpa using h
  | cons e E ih =>
    rw [List.foldl_cons]
    by_cases hm : e.Node.Name = name ∧ ToLower name ∉ ex
    · have hstep : sizeAndCount (parseLangEdge ex langs e) name = tally (F ++ [e]) := by
        rw [parseLangEdge_sizeAndCount, if_pos hm, tally_append_singleton, h]
      rw [ih _ _ hstep, List.filter_cons]
      simp [hm.1, hm.2]
    · have hstep : sizeAndCount (parseLangEdge ex langs e) name = tally F := by
        rw [parseLangEdge_sizeAndCount, if_neg hm, h]
      rw [ih _ _ hstep, List.filter_cons]
      have hb : (decide (e.Node.Name = name) && decide (ToLower name ∉ ex)) = false := by
        rw [← Bool.not_eq_true]
        simpa using hm
      rw [hb]
      rfl

theorem countedEdges_append (ex : List GoString) (repos : List (GoString × RepoWithLanguages))
    (k : GoString) (r : RepoWithLanguages) (name : GoString) :
    countedEdges ex (repos ++ [(k, r)]) name =
      countedEdges ex repos name ++ r.Languages.Edges.filter
        (fun e => decide (e.Node.Name = name) && decide (ToLower name ∉ ex)) := by
  unfold countedEdges
  simp

/-- The sizes and occurrence counts of the language mapping are those of the
edges of the stored records: one iteration of the repository loop keeps this. -/
theorem ingestRepo_tally (st : Snapshot) (r : RepoWithLanguages) (name : GoString)
    (h : sizeAndCount (st._languages.getD []) name =
      tally (countedEdges st.excludedLangs (st._repos.getD []) name)) :
    sizeAndCount ((ingestRepo st r)._languages.getD []) name =
      tally (countedEdges st.excludedLangs ((ingestRepo st r)._repos.getD []) name) := by
  rcases ingestRepo_cases st r with h0 | ⟨h1, _, hnone, _⟩
  · rw [h0]
    exact h
  · rw [h1, countRepo_languages, countRepo_repos, Option.getD_some, Option.getD_some,
      mapSet_of_none _ _ _ hnone, countedEdges_append]
    exact foldl_parseLangEdge_tally _ _ _ _ _ h

theorem foldl_ingestRepo_tally (rs : List RepoWithLanguages) (st : Snapshot) (name : GoString)
    (h : sizeAndCount (st._languages.getD []) name =
      tally (countedEdges st.excludedLangs (st._repos.getD []) name)) :
    sizeAndCount ((rs.foldl ingestRepo st)._languages.getD []) name =
      tally (countedEdges st.excludedLangs ((rs.foldl ingestRepo st)._repos.getD []) name) := by
  induction rs generalizing st with
  | nil => exact h
  | cons r rs ih =>
    rw [List.foldl_cons, ← (ingestRepo_config st r).2.1]
    apply ih
    rw [(ingestRepo_config st r).2.1]
    exact ingestRepo_tally st r name h

theorem sizeAndCount_setProps (langs : Option (List (GoString × LangInfo))) (name : GoString) :
    sizeAndCount ((setProps langs).getD []) name = sizeAndCount (langs.getD []) name := by
  cases langs with
  | none => rfl
  | some m =>
    unfold setProps sizeAndCount
    dsimp only
    by_cases ht : totalSize m > 0
    · simp only [ht, if_true, Option.getD_some]
      have hmv := congrArg (Option.map (fun (info : LangInfo) => (info.Size, info.Occurrences)))
        (mapGet_mapValues (fun (v : LangInfo) =>
          ({ v with Prop_ := (v.Size : ℚ) * 100 / (totalSize m : ℚ) } : LangInfo)) m name)
      refine hmv.trans ?_
      cases mapGet m name <;> rfl
    · simp only [ht, if_false, Option.getD_some, List.map_id']

theorem ingestRepo_totals (st : Snapshot) (r : RepoWithLanguages) (a b : Int)
    (h : st._stargazers = some (a +
        ((st._repos.getD []).map (fun kv => max kv.2.Stargazers.TotalCount 0)).sum) ∧
      st._forks = some (b + forkTotal (st._repos.getD []))) :
    (ingestRepo st r)._stargazers = some (a +
        (((ingestRepo st r)._repos.getD []).map
          (fun kv => max kv.2.Stargazers.TotalCount 0)).sum) ∧
      (ingestRepo st r)._forks = some (b + forkTotal ((ingestRepo st r)._repos.getD [])) := by
  rcases ingestRepo_cases st r with h0 | ⟨h1, _, hnone, _⟩
  · rw [h0]
    exact h
  · obtain ⟨t1, t2, t3, _⟩ := countRepo_totals st r
    rw [h1, t1, t2, t3, h.1, h.2, Option.getD_some, mapSet_of_none _ _ _ hnone]
    unfold forkTotal
    simp [add_assoc]

theorem foldl_ingestRepo_totals (rs : List RepoWithLanguages) (st : Snapshot) (a b : Int)
    (h : st._stargazers = some (a +
        ((st._repos.getD []).map (fun kv => max kv.2.Stargazers.TotalCount 0)).sum) ∧
      st._forks = some (b + forkTotal (st._repos.getD []))) :
    (rs.foldl ingestRepo st)._stargazers = some (a +
        (((rs.foldl ingestRepo st)._repos.getD []).map
          (fun kv => max kv.2.Stargazers.TotalCount 0)).sum) ∧
      (rs.foldl ingestRepo st)._forks =
        some (b + forkTotal ((rs.foldl ingestRepo st)._repos.getD [])) := by
  induction rs generalizing st with
  | nil => exact h
  | cons r rs ih => exact ih (ingestRepo st r) (ingestRepo_totals st r a b h)

theorem starTotal_of_nonneg (repos : List (GoString × RepoWithLanguages))
    (h : ∀ kv ∈ repos, 0 ≤ kv.2.Stargazers.TotalCount) :
    (repos.map (fun kv => max kv.2.Stargazers.TotalCount 0)).sum = starTotal repos := by
  unfold starTotal
  congr 1
  apply List.map_congr_left
  intro kv hkv
  exact max_eq_left (h kv hkv)

/-- The totals of a pass are those of the stored records: the star total grows
by the star counts greater than zero, the fork total by the fork counts, and,
when the language mapping did not exist before the pass, each language has the
size and the occurrence count of the edges of the stored records. -/
theorem getStats_totals (s s' : Snapshot) (remote remote' : Remote)
    (hrun : getStats s remote = some (s', remote')) :
    s'._stargazers = some (s._stargazers.getD 0 +
      ((s'._repos.getD []).map (fun kv => max kv.2.Stargazers.TotalCount 0)).sum) ∧
    s'._forks = some (s._forks.getD 0 + forkTotal (s'._repos.getD [])) ∧
    (s._languages = none → ∀ name,
      sizeAndCount (s'._languages.getD []) name =
        tally (countedEdges s.excludedLangs (s'._repos.getD []) name)) := by
  have hs := getStats_some s s' remote remote' hrun
  have hinit := initStats_config s
  have hsum : (initStats s)._stargazers = some (s._stargazers.getD 0 +
        (((initStats s)._repos.getD []).map (fun kv => max kv.2.Stargazers.TotalCount 0)).sum) ∧
      (initStats s)._forks = some (s._forks.getD 0 + forkTotal ((initStats s)._repos.getD [])) := by
    unfold initStats forkTotal
    cases h1 : s._stargazers <;> cases h2 : s._forks <;> simp [h1, h2]
  have hf := foldl_ingestRepo_totals (processedRepos s remote.pages) (initStats s) _ _ hsum
  refine ⟨?_, ?_, ?_⟩
  · rw [hs]
    exact hf.1
  · rw [hs]
    exact hf.2
  · intro hfresh name
    have ht := foldl_ingestRepo_tally (processedRepos s remote.pages) (initStats s) name
      (by rw [hinit.2.2.2.2.2, hfresh, hinit.2.2.2.2.1]; rfl)
    rw [hinit.2.1] at ht
    rw [hs]
    exact (sizeAndCount_setProps _ name).trans ht

/-! #### Language names -/

theorem matchesEntry_eq_listedIn (value name : GoString) (h : name ≠ []) :
    matchesEntry value name = listedIn value name := by
  unfold matchesEntry listedIn
  congr 1
  funext e
  by_cases he : e = []
  · subst he
    have hne : ¬ ToLower name = ToLower ([] : GoString) := by
      intro hc
      exact h ((ToLower_eq_nil name).1 hc)
    simp [hne]
  · simp [he]

theorem pageWithoutLangs_congr (p p' : GoString → Bool) (q : ReposOverviewQuery)
    (hq : namedLangs q = true) (hp : ∀ name, name ≠ [] → p name = p' name) :
    pageWithoutLangs p q = pageWithoutLangs p' q := by
  unfold namedLangs at hq
  simp only [List.all_eq_true, List.mem_append, decide_eq_true_eq] at hq
  have hrec : ∀ r, (r ∈ q.Viewer.Repositories.Nodes ∨
      r ∈ q.Viewer.RepositoriesContributedTo.Nodes) → withoutLangs p r = withoutLangs p' r := by
    intro r hr
    unfold withoutLangs
    have hf : r.Languages.Edges.filter (fun e => !p e.Node.Name) =
        r.Languages.Edges.filter (fun e => !p' e.Node.Name) := by
      apply List.filter_congr
      intro e he
      rw [hp _ (hq r hr e he)]
    rw [hf]
  unfold pageWithoutLangs
  have h1 : q.Viewer.Repositories.Nodes.map (withoutLangs p) =
      q.Viewer.Repositories.Nodes.map (withoutLangs p') :=
    List.map_congr_left (fun r hr => hrec r (Or.inl hr))
  have h2 : q.Viewer.RepositoriesContributedTo.Nodes.map (withoutLangs p) =
      q.Viewer.RepositoriesContributedTo.Nodes.map (withoutLangs p') :=
    List.map_congr_left (fun r hr => hrec r (Or.inr hr))
  rw [h1, h2]

theorem consumedPages_mem (pages ps : List ReposOverviewQuery)
    (h : consumedPages pages = some ps) : ∀ q ∈ ps, q ∈ pages := by
  induction pages generalizing ps with
  | nil => simp [consumedPages] at h
  | cons p rest ih =>
    unfold consumedPages at h
    by_cases hl : lastPage p = true
    · simp only [hl, if_true, Option.some.injEq] at h
      subst h
      intro q hq
      rw [List.mem_singleton] at hq
      rw [hq]
      exact List.mem_cons_self _ _
    · simp only [hl, if_false, Bool.false_eq_true] at h
      cases hc : consumedPages rest with
      | none => simp [hc] at h
      | some ps0 =>
        simp only [hc, Option.map_some', Option.some.injEq] at h
        subst h
        intro q hq
        rcases List.mem_cons.1 hq with hq | hq
        · rw [hq]
          exact List.mem_cons_self _ _
        · exact List.mem_cons_of_mem _ (ih ps0 hc q hq)

theorem processedRepos_named (s : Snapshot) (pages : List ReposOverviewQuery)
    (hnames : ∀ q ∈ pages, namedLangs q = true) :
    ∀ r ∈ processedRepos s pages, ∀ e ∈ r.Languages.Edges, e.Node.Name ≠ [] := by
  intro r hr e he
  unfold processedRepos at hr
  cases hc : consumedPages pages with
  | none => simp [hc] at hr
  | some ps =>
    simp only [hc, Option.getD_some, List.mem_flatten, List.mem_map] at hr
    obtain ⟨l, ⟨q, hq, hl⟩, hrl⟩ := hr
    have hn := hnames q (consumedPages_mem pages ps hc q hq)
    unfold namedLangs at hn
    simp only [List.all_eq_true, List.mem_append, decide_eq_true_eq] at hn
    apply hn r _ e he
    rw [← hl] at hrl
    unfold pageRepos at hrl
    by_cases hx : s.includeExternalRepos = true
    · simp only [hx, if_true, List.mem_append] at hrl
      exact hrl
    · simp only [hx, if_false, Bool.false_eq_true] at hrl
      exact Or.inl hrl

theorem foldl_parseLangEdge_of (P : List (GoString × LangInfo) → Prop)
    (Q : LangEdge → Prop) (ex : List GoString)
    (hstep : ∀ langs e, Q e → P langs → P (parseLangEdge ex langs e))
    (es : List LangEdge) (hQ : ∀ e ∈ es, Q e) (langs : List (GoString × LangInfo))
    (h : P langs) : P (es.foldl (parseLangEdge ex) langs) := by
  induction es generalizing langs with
  | nil => exact h
  | cons e es ih =>
    exact ih (fun x hx => hQ x (List.mem_cons_of_mem _ hx)) _
      (hstep langs e (hQ e (List.mem_cons_self _ _)) h)

/-- A property of the language entries that the edges of the records preserve is
preserved by the whole repository loop. -/
theorem foldl_ingestRepo_languages_of (P : List (GoString × LangInfo) → Prop)
    (Q : LangEdge → Prop) (ex : List GoString)
    (hstep : ∀ langs e, Q e → P langs → P (parseLangEdge ex langs e))
    (rs : List RepoWithLanguages) (hQ : ∀ r ∈ rs, ∀ e ∈ r.Languages.Edges, Q e)
    (st : Snapshot) (hex : st.excludedLangs = ex)
    (h : P (st._languages.getD [])) :
    P ((rs.foldl ingestRepo st)._languages.getD []) := by
  induction rs generalizing st with
  | nil => exact h
  | cons r rs ih =>
    apply ih (fun x hx => hQ x (List.mem_cons_of_mem _ hx)) (ingestRepo st r)
      ((ingestRepo_config st r).2.1.trans hex)
    rcases ingestRepo_cases st r with h0 | ⟨h1, _, _, _⟩
    · rw [h0]
      exact h
    · rw [h1, countRepo_languages, Option.getD_some, hex]
      exact foldl_parseLangEdge_of P Q ex hstep _ (hQ r (List.mem_cons_self _ _)) _ h

theorem parseLangEdge_named (ex : List GoString) (langs : List (GoString × LangInfo))
    (e : LangEdge) (he : e.Node.Name ≠ []) (h : ∀ kv ∈ langs, kv.1 ≠ []) :
    ∀ kv ∈ parseLangEdge ex langs e, kv.1 ≠ [] := by
  unfold parseLangEdge
  dsimp only
  by_cases hx : ToLower e.Node.Name ∈ ex
  · simp only [hx, if_true]
    exact h
  · simp only [hx, if_false]
    cases hm : mapGet langs e.Node.Name with
    | some entry =>
      intro kv hkv
      rcases mapSet_keys _ _ _ kv hkv with hkv | hkv
      · rw [hkv]
        exact he
      · exact h kv hkv
    | none =>
      intro kv hkv
      rcases mapSet_keys _ _ _ kv hkv with hkv | hkv
      · rw [hkv]
        exact he
      · exact h kv hkv

/-! ### The claims -/

/-- C1 (the code departs from the claim). With `EXCLUDED_REPOS=Foo/Bar`, the set
parsed by `GetListEnv` holds the lower-cased `foo/bar`, and `getStats` looks
the repository name up as it is: the repository `Foo/Bar` is kept in
`repositories()` and its 5 stars, 2 forks and its language are counted. -/
theorem excluded_repo_mixed_case_is_counted :
    snapExcludingFooBar.excludedRepos = ["foo/bar".toList] ∧
    ToLower repoFooBar.NameWithOwner = ToLower "Foo/Bar".toList ∧
    (getStats snapExcludingFooBar { pages := [finalPage [repoFooBar] []], requests := [] }).map
        (fun r => r.1._repos) = some (some [("Foo/Bar".toList, repoFooBar)]) ∧
    (getStats snapExcludingFooBar { pages := [finalPage [repoFooBar] []], requests := [] }).map
        (fun r => r.1._stargazers) = some (some 5) ∧
    (getStats snapExcludingFooBar { pages := [finalPage [repoFooBar] []], requests := [] }).map
        (fun r => r.1._forks) = some (some 2) ∧
    (getStats snapExcludingFooBar { pages := [finalPage [repoFooBar] []], requests := [] }).map
        (fun r => (r.1._languages.getD []).map (fun kv => (kv.1, kv.2.Size))) =
      some [("Go".toList, 100)] := by
  refine ⟨by decide, by decide, by decide, by decide, by decide, by decide⟩

/-- C2. Let the excluded languages be `GetListEnv` of a value, let the language
mapping not exist yet when `getStats` starts, and let every language edge of
the responses carry a name. After the pass, no language whose name equals,
ignoring letter case, one of the trimmed comma-separated entries of the value
is a key of `languages()`; and `languages()` (names, sizes, occurrence counts,
colours and percentage shares) is what the pass gives on the same responses
without any language edge of such a name: the bytes of those languages are in
no size and in no total. -/
theorem excluded_langs (value : GoString) (s s' : Snapshot) (remote remote' : Remote)
    (hset : s.excludedLangs = GetListEnv (some value))
    (hfresh : s._languages = none)
    (hnames : ∀ q ∈ remote.pages, namedLangs q = true)
    (hrun : getStats s remote = some (s', remote')) :
    (∀ e ∈ (Split value ',').map TrimSpace,
      ∀ name, ToLower name = ToLower e → mapGet (s'._languages.getD []) name = none) ∧
    (getStats s
      { pages := remote.pages.map (pageWithoutLangs (matchesEntry value)),
        requests := remote.requests }).map (fun x => x.1._languages) = some s'._languages := by
  have hinit := initStats_config s
  constructor
  · intro e he name hname
    have hs := getStats_some s s' remote remote' hrun
    have hkeys := foldl_ingestRepo_languages
      (fun langs => ∀ kv ∈ langs, ToLower kv.1 ∉ s.excludedLangs) s.excludedLangs
      (fun langs e h => parseLangEdge_keys _ langs e h)
      (processedRepos s remote.pages) (initStats s) hinit.2.1
      (by rw [hinit.2.2.2.2.2, hfresh]; intro kv hkv; cases hkv)
    have hnamed := foldl_ingestRepo_languages_of
      (fun langs => ∀ kv ∈ langs, kv.1 ≠ []) (fun e => e.Node.Name ≠ []) s.excludedLangs
      (fun langs e he h => parseLangEdge_named _ langs e he h)
      (processedRepos s remote.pages) (processedRepos_named s remote.pages hnames)
      (initStats s) hinit.2.1
      (by rw [hinit.2.2.2.2.2, hfresh]; intro kv hkv; cases hkv)
    generalize (processedRepos s remote.pages).foldl ingestRepo (initStats s) = st
      at hs hkeys hnamed
    have hl : s'._languages = setProps st._languages := by
      rw [hs]
      rfl
    rw [hl, mapGet_eq_none]
    intro kv hkv heq
    obtain ⟨kv0, hmem, hkv0⟩ := setProps_keys _ kv hkv
    by_cases hne : e = []
    · apply hnamed kv0 hmem
      rw [← hkv0, heq]
      rw [hne] at hname
      exact (ToLower_eq_nil name).1 hname
    · apply hkeys kv0 hmem
      rw [hset, mem_GetListEnv, ← hkv0, heq, hname]
      exact ⟨e, he, hne, rfl⟩
  · have hp : ∀ name, listedIn value name = true → ToLower name ∈ (initStats s).excludedLangs := by
      intro name hn
      rw [hinit.2.1, hset]
      exact (listedIn_iff value name).1 hn
    have hpages : remote.pages.map (pageWithoutLangs (matchesEntry value)) =
        remote.pages.map (pageWithoutLangs (listedIn value)) :=
      List.map_congr_left (fun q hq =>
        pageWithoutLangs_congr _ _ q (hnames q hq) (matchesEntry_eq_listedIn value))
    rw [hpages]
    rw [getStats_eq] at hrun
    rw [getStats_eq]
    simp only [consumedPages_withoutLangs]
    cases hc : consumedPages remote.pages with
    | none => simp [hc] at hrun
    | some ps =>
      simp only [hc, Option.map_some', Option.some.injEq, Prod.mk.injEq] at hrun ⊢
      rw [← hrun.1, pageRepos_withoutLangs, ← storedWithoutLangs_initStats (listedIn value) s,
        foldl_ingestRepo_withoutLangs _ _ _ hp, storedWithoutLangs_initStats]
      rfl

/-- C2, a concrete case: with `EXCLUDED_LANGS=Go, rust`, the languages Go and Rust
of `octocat/mix` are not keys, and the C of the fork `octocat/fork`, the one
language left, keeps a share of 100. -/
theorem excluded_langs_witness :
    snapExcludingGoRust.excludedLangs = GetListEnv (some "Go, rust".toList) ∧
    snapExcludingGoRust._languages = none ∧
    (∀ q ∈ [finalPage [repoMix] [repoFork]], namedLangs q = true) ∧
    getStats snapExcludingGoRust
      { pages := [finalPage [repoMix] [repoFork]], requests := [] } =
      some (snapAfterExcludingGoRust,
        { pages := [], requests := [{ repoCursor := [], contribCursor := [] }] }) ∧
    ((∀ e ∈ (Split "Go, rust".toList ',').map TrimSpace,
        ∀ name, ToLower name = ToLower e →
          mapGet (snapAfterExcludingGoRust._languages.getD []) name = none) ∧
      (getStats snapExcludingGoRust
        { pages := [finalPage [repoMix] [repoFork]].map
            (pageWithoutLangs (matchesEntry "Go, rust".toList)),
          requests := [] }).map (fun x => x.1._languages) =
        some snapAfterExcludingGoRust._languages) :=
  have hrun : getStats snapExcludingGoRust
      { pages := [finalPage [repoMix] [repoFork]], requests := [] } =
      some (snapAfterExcludingGoRust,
        { pages := [], requests := [{ repoCursor := [], contribCursor := [] }] }) := by
    have hloop : statsLoop (initStats snapExcludingGoRust) [] [] []
        [finalPage [repoMix] [repoFork]] =
        some ({ snapAfterExcludingGoRust with
            _languages := some [("C".toList,
              { Size := 40, Occurrences := 1, Colour := "#000000".toList, Prop_ := 0 })] },
          { pages := [], requests := [{ repoCursor := [], contribCursor := [] }] }) := by
      decide
    unfold getStats
    dsimp only
    rw [hloop]
    simp [snapAfterExcludingGoRust, setProps, totalSize]
  ⟨rfl, rfl, by decide, hrun,
    excluded_langs "Go, rust".toList snapExcludingGoRust snapAfterExcludingGoRust
      { pages := [finalPage [repoMix] [repoFork]], requests := [] }
      { pages := [], requests := [{ repoCursor := [], contribCursor := [] }] } rfl rfl
      (by decide) hrun⟩

/-- C3, as amended. Let a record `r` occur in the records processed by `getStats`
with no earlier record of the same identifier, let its identifier not be
excluded and let it pass the fork filter (not a fork, or `includeForkedRepos`).
Then the identifier is counted exactly once. `repositories()` holds `r` for it
and holds one record for it. The totals are those of the stored records, each
taken once, on top of what the totals were before the pass: `stargazers()` adds
the sum of their star counts (a star count being never negative), `forks()` adds
the sum of their fork counts and, the language mapping not existing before the
pass, every language has as size the sum of the sizes, and as occurrence count
the number, of the edges of that name in the stored records (no entry when
there is none, or when the name is excluded). So the values of `r` are in the
totals once and the later records of its identifier, which are not stored, add
nothing: the whole result is the one obtained by counting `r` and then
processing only the later records that have another identifier. -/
theorem dedup_first_seen (s s' : Snapshot) (remote remote' : Remote)
    (A B : List RepoWithLanguages) (r : RepoWithLanguages)
    (hrun : getStats s remote = some (s', remote'))
    (hrecs : processedRepos s remote.pages = A ++ r :: B)
    (hfirst : ∀ x ∈ A, x.NameWithOwner ≠ r.NameWithOwner)
    (hnex : r.NameWithOwner ∉ s.excludedRepos)
    (hfork : r.IsFork = false ∨ s.includeForkedRepos = true) :
    mapGet (s'._repos.getD []) r.NameWithOwner = some r ∧
    ((s'._repos.getD []).filter (fun kv => decide (kv.1 = r.NameWithOwner))).length = 1 ∧
    ((∀ kv ∈ s'._repos.getD [], 0 ≤ kv.2.Stargazers.TotalCount) →
      s'._stargazers = some (s._stargazers.getD 0 + starTotal (s'._repos.getD []))) ∧
    s'._forks = some (s._forks.getD 0 + forkTotal (s'._repos.getD [])) ∧
    (s._languages = none → ∀ name,
      sizeAndCount (s'._languages.getD []) name =
        tally (countedEdges s.excludedLangs (s'._repos.getD []) name)) ∧
    s' = finishStats
      ((B.filter (fun x => decide (x.NameWithOwner ≠ r.NameWithOwner))).foldl ingestRepo
        (countRepo (A.foldl ingestRepo (initStats s)) r)) s'._name := by
  obtain ⟨hstars, hforks, hlangs⟩ := getStats_totals s s' remote remote' hrun
  have hs := getStats_some s s' remote remote' hrun
  rw [hrecs, List.foldl_append, List.foldl_cons] at hs
  have hcfg := foldl_ingestRepo_config A (initStats s)
  have hinit := initStats_config s
  have hnone : mapGet ((A.foldl ingestRepo (initStats s))._repos.getD []) r.NameWithOwner = none := by
    rw [foldl_ingestRepo_mapGet_ne A _ _ hfirst, hinit.2.2.2.2.1]
    rfl
  have hcount : ingestRepo (A.foldl ingestRepo (initStats s)) r =
      countRepo (A.foldl ingestRepo (initStats s)) r := by
    apply ingestRepo_of_new _ _ _ hnone
    · rw [hcfg.2.2.1, hinit.2.2.1]
      exact hfork
    · rw [hcfg.1, hinit.1]
      exact hnex
  rw [hcount] at hs
  have hget : mapGet ((countRepo (A.foldl ingestRepo (initStats s)) r)._repos.getD [])
      r.NameWithOwner = some r := by
    rw [countRepo_repos]
    exact mapGet_mapSet_same _ _ _
  have hfinal : mapGet (s'._repos.getD []) r.NameWithOwner = some r := by
    rw [hs, finishStats_repos]
    exact foldl_ingestRepo_mapGet_some B _ _ _ hget
  refine ⟨hfinal, ?_, ?_, hforks, hlangs, ?_⟩
  · apply filter_key_of_nodup _ _ r _ hfinal
    rw [hs, finishStats_repos, ← hcount, ← List.foldl_cons, ← List.foldl_append]
    apply foldl_ingestRepo_nodup
    rw [hinit.2.2.2.2.1]
    exact List.nodup_nil
  · intro hpos
    rw [hstars, starTotal_of_nonneg _ hpos]
  · rw [← foldl_ingestRepo_filter_seen B _ _ r hget]
    exact hs

/-- C3, a concrete case: `octocat/app` is listed by both collections with
different values; the owned record, seen first, is the one kept and counted.
With `octocat/mix` the totals are 5 + 1 stars, 2 + 0 forks, Go with 100 + 100
bytes in 2 occurrences and Rust with 300 bytes in 1 occurrence: the 7 stars,
the fork, the 900 bytes of Go and the 50 bytes of Rust of the later record are
in no total. -/
theorem dedup_first_seen_witness :
    getStats snapExternal
      { pages := [finalPage [repoApp, repoMix] [repoAppLater]], requests := [] } =
      some (snapAfterAppMix,
        { pages := [], requests := [{ repoCursor := [], contribCursor := [] }] }) ∧
    processedRepos snapExternal [finalPage [repoApp, repoMix] [repoAppLater]] =
      [] ++ repoApp :: [repoMix, repoAppLater] ∧
    (mapGet (snapAfterAppMix._repos.getD []) repoApp.NameWithOwner = some repoApp ∧
      ((snapAfterAppMix._repos.getD []).filter
        (fun kv => decide (kv.1 = repoApp.NameWithOwner))).length = 1 ∧
      ((∀ kv ∈ snapAfterAppMix._repos.getD [], 0 ≤ kv.2.Stargazers.TotalCount) →
        snapAfterAppMix._stargazers =
          some (snapExternal._stargazers.getD 0 + starTotal (snapAfterAppMix._repos.getD []))) ∧
      snapAfterAppMix._forks =
        some (snapExternal._forks.getD 0 + forkTotal (snapAfterAppMix._repos.getD [])) ∧
      (snapExternal._languages = none → ∀ name,
        sizeAndCount (snapAfterAppMix._languages.getD []) name =
          tally (countedEdges snapExternal.excludedLangs (snapAfterAppMix._repos.getD []) name)) ∧
      snapAfterAppMix = finishStats
        (([repoMix, repoAppLater].filter
            (fun x => decide (x.NameWithOwner ≠ repoApp.NameWithOwner))).foldl ingestRepo
          (countRepo (([] : List RepoWithLanguages).foldl ingestRepo (initStats snapExternal))
            repoApp)) snapAfterAppMix._name) ∧
    snapExternal._stargazers.getD 0 + starTotal (snapAfterAppMix._repos.getD []) = 6 ∧
    snapExternal._forks.getD 0 + forkTotal (snapAfterAppMix._repos.getD []) = 2 ∧
    tally (countedEdges snapExternal.excludedLangs (snapAfterAppMix._repos.getD [])
      "Go".toList) = some (200, 2) ∧
    tally (countedEdges snapExternal.excludedLangs (snapAfterAppMix._repos.getD [])
      "Rust".toList) = some (300, 1) :=
  have hrun : getStats snapExternal
      { pages := [finalPage [repoApp, repoMix] [repoAppLater]], requests := [] } =
      some (snapAfterAppMix,
        { pages := [], requests := [{ repoCursor := [], contribCursor := [] }] }) := by
    have hloop : statsLoop (initStats snapExternal) [] [] []
        [finalPage [repoApp, repoMix] [repoAppLater]] =
        some ({ snapAfterAppMix with
            _languages := some
              [("Go".toList,
                  { Size := 200, Occurrences := 2, Colour := "#000000".toList, Prop_ := 0 }),
               ("Rust".toList,
                  { Size := 300, Occurrences := 1, Colour := "#dea584".toList, Prop_ := 0 })] },
          { pages := [], requests := [{ repoCursor := [], contribCursor := [] }] }) := by
      decide
    unfold getStats
    dsimp only
    rw [hloop]
    simp [snapAfterAppMix, setProps, totalSize]
    norm_num
  ⟨hrun, by decide,
    dedup_first_seen snapExternal snapAfterAppMix
      { pages := [finalPage [repoApp, repoMix] [repoAppLater]], requests := [] }
      { pages := [], requests := [{ repoCursor := [], contribCursor := [] }] }
      [] [repoMix, repoAppLater] repoApp hrun (by decide) (by decide) (by decide)
      (by decide),
    by decide, by decide, by decide, by decide⟩

/-- C3 as stated fails. With external contributions enabled, an identifier that
occurs twice among the records processed is counted zero times, and
`repositories()` holds no record for it, when it is a fork and
`includeForkedRepos` is false (here a fork listed on two pages of the
contributed-to collection), and when it is excluded (here a repository listed
by both collections). -/
theorem dedup_counterexample :
    ((processedRepos snapExternal [forkPage, finalPage [] [repoFork]]).filter
      (fun x => decide (x.NameWithOwner = "octocat/fork".toList))).length = 2 ∧
    (getStats snapExternal
      { pages := [forkPage, finalPage [] [repoFork]], requests := [] }).map
      (fun x => (mapGet (x.1._repos.getD []) "octocat/fork".toList, x.1._stargazers, x.1._forks)) =
      some (none, some 0, some 0) ∧
    ((processedRepos snapExternalExcludingApp [finalPage [repoApp] [repoApp]]).filter
      (fun x => decide (x.NameWithOwner = "octocat/app".toList))).length = 2 ∧
    (getStats snapExternalExcludingApp
      { pages := [finalPage [repoApp] [repoApp]], requests := [] }).map
      (fun x => (mapGet (x.1._repos.getD []) "octocat/app".toList, x.1._stargazers, x.1._forks)) =
      some (none, some 0, some 0) := by
  refine ⟨by decide, by decide, by decide, by decide⟩

/-- C4. Let `r` be a record with fork flag true that is not excluded and is the
first record of its identifier among the records processed by `getStats`. Then
`repositories()` holds `r` if and only if `includeForkedRepos` is true, and it
then holds one record for the identifier. The totals are those of the stored
records, each taken once, on top of what the totals were before the pass:
`stargazers()` adds the sum of their star counts (a star count being never
negative), `forks()` adds the sum of their fork counts and, the language mapping
not existing before the pass, every language has as size the sum of the sizes,
and as occurrence count the number, of the edges of that name in the stored
records (no entry when there is none, or when the name is excluded). So the
stars, the forks and the languages of `r` are in the totals exactly when the
flag is true: then `r` is counted after the records before it. When the flag is
false the mapping, the two totals and the languages are those of every pass
that processes the same records without `r`. -/
theorem fork_filtering (s s' : Snapshot) (remote remote' : Remote)
    (A B : List RepoWithLanguages) (r : RepoWithLanguages)
    (hrun : getStats s remote = some (s', remote'))
    (hrecs : processedRepos s remote.pages = A ++ r :: B)
    (hfirst : ∀ x ∈ A, x.NameWithOwner ≠ r.NameWithOwner)
    (hnex : r.NameWithOwner ∉ s.excludedRepos)
    (hfork : r.IsFork = true) :
    (mapGet (s'._repos.getD []) r.NameWithOwner = some r ↔ s.includeForkedRepos = true) ∧
    ((∀ kv ∈ s'._repos.getD [], 0 ≤ kv.2.Stargazers.TotalCount) →
      s'._stargazers = some (s._stargazers.getD 0 + starTotal (s'._repos.getD []))) ∧
    s'._forks = some (s._forks.getD 0 + forkTotal (s'._repos.getD [])) ∧
    (s._languages = none → ∀ name,
      sizeAndCount (s'._languages.getD []) name =
        tally (countedEdges s.excludedLangs (s'._repos.getD []) name)) ∧
    (s.includeForkedRepos = true →
      ((s'._repos.getD []).filter (fun kv => decide (kv.1 = r.NameWithOwner))).length = 1 ∧
      s' = finishStats (B.foldl ingestRepo (countRepo (A.foldl ingestRepo (initStats s)) r))
        s'._name) ∧
    (s.includeForkedRepos = false →
      ∀ (remote2 remote2' : Remote) (s2 : Snapshot),
        getStats s remote2 = some (s2, remote2') →
        processedRepos s remote2.pages = A ++ B → statsOf s2 = statsOf s') := by
  obtain ⟨hstars, hforks, hlangs⟩ := getStats_totals s s' remote remote' hrun
  have hs := getStats_some s s' remote remote' hrun
  rw [hrecs, List.foldl_append, List.foldl_cons] at hs
  have hcfg := foldl_ingestRepo_config A (initStats s)
  have hinit := initStats_config s
  have hnone : mapGet ((A.foldl ingestRepo (initStats s))._repos.getD []) r.NameWithOwner = none := by
    rw [foldl_ingestRepo_mapGet_ne A _ _ hfirst, hinit.2.2.2.2.1]
    rfl
  have hcount : s.includeForkedRepos = true →
      ingestRepo (A.foldl ingestRepo (initStats s)) r =
        countRepo (A.foldl ingestRepo (initStats s)) r := by
    intro hflag
    apply ingestRepo_of_new _ _ _ hnone
    · rw [hcfg.2.2.1, hinit.2.2.1]
      exact Or.inr hflag
    · rw [hcfg.1, hinit.1]
      exact hnex
  have htrue : s.includeForkedRepos = true →
      s' = finishStats (B.foldl ingestRepo (countRepo (A.foldl ingestRepo (initStats s)) r))
        s'._name := by
    intro hflag
    rw [hcount hflag] at hs
    exact hs
  have hkept : s.includeForkedRepos = true →
      mapGet (s'._repos.getD []) r.NameWithOwner = some r := by
    intro hflag
    rw [htrue hflag, finishStats_repos]
    apply foldl_ingestRepo_mapGet_some
    rw [countRepo_repos]
    exact mapGet_mapSet_same _ _ _
  refine ⟨⟨?_, hkept⟩, ?_, hforks, hlangs, ?_, ?_⟩
  · intro hget
    cases hflag : s.includeForkedRepos with
    | true => rfl
    | false =>
      exfalso
      have hall := foldl_ingestRepo_forks (A ++ r :: B) (initStats s)
        (hinit.2.2.1.trans hflag) (by rw [hinit.2.2.2.2.1]; intro kv hkv; cases hkv)
      rw [List.foldl_append, List.foldl_cons] at hall
      rw [hs, finishStats_repos] at hget
      have := hall _ (mapGet_mem _ _ _ hget)
      rw [hfork] at this
      exact absurd this (by decide)
  · intro hpos
    rw [hstars, starTotal_of_nonneg _ hpos]
  · intro hflag
    refine ⟨?_, htrue hflag⟩
    apply filter_key_of_nodup _ _ r _ (hkept hflag)
    rw [hs, finishStats_repos, ← List.foldl_cons, ← List.foldl_append]
    apply foldl_ingestRepo_nodup
    rw [hinit.2.2.2.2.1]
    exact List.nodup_nil
  · intro hflag remote2 remote2' s2 hrun2 hrecs2
    have hs2 := getStats_some s s2 remote2 remote2' hrun2
    rw [hrecs2, List.foldl_append] at hs2
    have hskip : ingestRepo (A.foldl ingestRepo (initStats s)) r =
        A.foldl ingestRepo (initStats s) :=
      ingestRepo_of_fork _ _ hfork (by rw [hcfg.2.2.1, hinit.2.2.1]; exact hflag)
    rw [hskip] at hs
    rw [hs, hs2]
    rfl

/-- C4, two concrete cases, the fork `acme/tool` being listed by the
contributed-to collection after the owned `octocat/app`. With
`includeForkedRepos` true the fork is kept and the totals are 5 + 3 stars,
2 + 1 forks and Go with 100 + 300 bytes in 2 occurrences. With
`includeForkedRepos` false the fork is not kept and the results are those of
the pass on `octocat/app` alone: 5 stars, 2 forks, Go with 100 bytes. -/
theorem fork_filtering_witness :
    (getStats snapExternalForks
        { pages := [finalPage [repoApp] [repoToolFork]], requests := [] } =
        some (snapAfterAppAndFork,
          { pages := [], requests := [{ repoCursor := [], contribCursor := [] }] }) ∧
      snapExternalForks.includeForkedRepos = true ∧
      mapGet (snapAfterAppAndFork._repos.getD []) repoToolFork.NameWithOwner =
        some repoToolFork ∧
      ((snapAfterAppAndFork._repos.getD []).filter
        (fun kv => decide (kv.1 = repoToolFork.NameWithOwner))).length = 1 ∧
      snapAfterAppAndFork._stargazers =
        some (snapExternalForks._stargazers.getD 0 +
          starTotal (snapAfterAppAndFork._repos.getD [])) ∧
      snapAfterAppAndFork._forks =
        some (snapExternalForks._forks.getD 0 + forkTotal (snapAfterAppAndFork._repos.getD [])) ∧
      (∀ name, sizeAndCount (snapAfterAppAndFork._languages.getD []) name =
        tally (countedEdges snapExternalForks.excludedLangs
          (snapAfterAppAndFork._repos.getD []) name)) ∧
      snapExternalForks._stargazers.getD 0 + starTotal (snapAfterAppAndFork._repos.getD []) = 8 ∧
      snapExternalForks._forks.getD 0 + forkTotal (snapAfterAppAndFork._repos.getD []) = 3 ∧
      tally (countedEdges snapExternalForks.excludedLangs (snapAfterAppAndFork._repos.getD [])
        "Go".toList) = some (400, 2)) ∧
    (getStats snapExternal
        { pages := [finalPage [repoApp] [repoToolFork]], requests := [] } =
        some (snapAfterApp true,
          { pages := [], requests := [{ repoCursor := [], contribCursor := [] }] }) ∧
      snapExternal.includeForkedRepos = false ∧
      mapGet ((snapAfterApp true)._repos.getD []) repoToolFork.NameWithOwner = none ∧
      (snapAfterApp true)._stargazers =
        some (snapExternal._stargazers.getD 0 + starTotal ((snapAfterApp true)._repos.getD [])) ∧
      (snapAfterApp true)._forks =
        some (snapExternal._forks.getD 0 + forkTotal ((snapAfterApp true)._repos.getD [])) ∧
      (∀ name, sizeAndCount ((snapAfterApp true)._languages.getD []) name =
        tally (countedEdges snapExternal.excludedLangs
          ((snapAfterApp true)._repos.getD []) name)) ∧
      (∀ (remote2 remote2' : Remote) (s2 : Snapshot),
        getStats snapExternal remote2 = some (s2, remote2') →
        processedRepos snapExternal remote2.pages = [repoApp] ++ [] →
        statsOf s2 = statsOf (snapAfterApp true)) ∧
      snapExternal._stargazers.getD 0 + starTotal ((snapAfterApp true)._repos.getD []) = 5 ∧
      snapExternal._forks.getD 0 + forkTotal ((snapAfterApp true)._repos.getD []) = 2 ∧
      tally (countedEdges snapExternal.excludedLangs ((snapAfterApp true)._repos.getD [])
        "Go".toList) = some (100, 1)) :=
  have hrun : getStats snapExternalForks
      { pages := [finalPage [repoApp] [repoToolFork]], requests := [] } =
      some (snapAfterAppAndFork,
        { pages := [], requests := [{ repoCursor := [], contribCursor := [] }] }) := by
    have hloop : statsLoop (initStats snapExternalForks) [] [] []
        [finalPage [repoApp] [repoToolFork]] =
        some ({ snapAfterAppAndFork with
            _languages := some
              [("Go".toList,
                  { Size := 400, Occurrences := 2, Colour := "#000000".toList, Prop_ := 0 })] },
          { pages := [], requests := [{ repoCursor := [], contribCursor := [] }] }) := by
      decide
    unfold getStats
    dsimp only
    rw [hloop]
    simp [snapAfterAppAndFork, setProps, totalSize]
  have hrun2 : getStats snapExternal
      { pages := [finalPage [repoApp] [repoToolFork]], requests := [] } =
      some (snapAfterApp true,
        { pages := [], requests := [{ repoCursor := [], contribCursor := [] }] }) := by
    have hloop : statsLoop (initStats snapExternal) [] [] []
        [finalPage [repoApp] [repoToolFork]] =
        some ({ snapAfterApp true with
            _languages := some [("Go".toList, { langGoOnly with Prop_ := 0 })] },
          { pages := [], requests := [{ repoCursor := [], contribCursor := [] }] }) := by
      decide
    unfold getStats
    dsimp only
    rw [hloop]
    simp [snapAfterApp, langGoOnly, setProps, totalSize]
  have hyes := fork_filtering snapExternalForks snapAfterAppAndFork
    { pages := [finalPage [repoApp] [repoToolFork]], requests := [] }
    { pages := [], requests := [{ repoCursor := [], contribCursor := [] }] }
    [repoApp] [] repoToolFork hrun (by decide) (by decide) (by decide) (by decide)
  have hno := fork_filtering snapExternal (snapAfterApp true)
    { pages := [finalPage [repoApp] [repoToolFork]], requests := [] }
    { pages := [], requests := [{ repoCursor := [], contribCursor := [] }] }
    [repoApp] [] repoToolFork hrun2 (by decide) (by decide) (by decide) (by decide)
  ⟨⟨hrun, rfl, hyes.1.2 rfl, (hyes.2.2.2.2.1 rfl).1,
      hyes.2.1 (by decide), hyes.2.2.1, hyes.2.2.2.1 rfl, by decide, by decide, by decide⟩,
    ⟨hrun2, rfl, by decide, hno.2.1 (by decide), hno.2.2.1,
      hno.2.2.2.1 rfl, hno.2.2.2.2.2 rfl, by decide, by decide, by decide⟩⟩

/-- C5. With `includeExternalRepos` false, two sequences of responses that agree,
response by response, on the owned-repository nodes and on the page info of
both collections give the same `repositories()`, `stargazers()`, `forks()` and
`languages()` (and the same queries are sent), whatever their contributed-to
nodes are; the pass ends on one exactly when it ends on the other. -/
theorem external_disabled_ignores_contributed (s : Snapshot)
    (pages1 pages2 : List ReposOverviewQuery) (reqs : List QueryVars)
    (hext : s.includeExternalRepos = false)
    (hagree : List.Forall₂ agreeButContribNodes pages1 pages2) :
    (getStats s { pages := pages1, requests := reqs }).map
        (fun x => (statsOf x.1, x.2.requests)) =
      (getStats s { pages := pages2, requests := reqs }).map
        (fun x => (statsOf x.1, x.2.requests)) := by
  rw [getStats_eq, getStats_eq]
  rcases consumedPages_agree pages1 pages2 hagree with ⟨h1, h2⟩ | ⟨c1, c2, h1, h2, h3⟩
  · simp only [h1, h2, Option.map_none']
  · simp only [h1, h2, Option.map_some']
    rw [pageRepos_agree s hext c1 c2 h3, loopRequests_agree c1 c2 h3]
    rfl


/-- C5, a concrete case: a fork and a duplicate listed only as contributed-to
change nothing when external contributions are disabled. -/
theorem external_disabled_ignores_contributed_witness :
    snapDefault.includeExternalRepos = false ∧
    List.Forall₂ agreeButContribNodes [finalPage [repoApp] []]
      [finalPage [repoApp] [repoFork, repoAppLater]] ∧
    (getStats snapDefault { pages := [finalPage [repoApp] []], requests := [] }).map
        (fun x => (statsOf x.1, x.2.requests)) =
      (getStats snapDefault
        { pages := [finalPage [repoApp] [repoFork, repoAppLater]], requests := [] }).map
        (fun x => (statsOf x.1, x.2.requests)) :=
  ⟨by decide, List.Forall₂.cons (by decide) List.Forall₂.nil,
    external_disabled_ignores_contributed snapDefault [finalPage [repoApp] []]
      [finalPage [repoApp] [repoFork, repoAppLater]] [] (by decide)
      (List.Forall₂.cons (by decide) List.Forall₂.nil)⟩

/-- C6. After `getStats` on a snapshot whose language mapping does not exist yet
(so it is at every call the accessors make, `cachesConsistent_reachable`), in
exact arithmetic: when
the total size of the retained languages is positive, every share is
`size * 100 / total` and the shares sum to 100; when the total is zero, every
share is zero. -/
theorem language_shares (s s' : Snapshot) (remote remote' : Remote)
    (hfresh : s._languages = none)
    (hrun : getStats s remote = some (s', remote')) :
    (0 < totalSize (s'._languages.getD []) →
      (∀ kv ∈ s'._languages.getD [],
        kv.2.Prop_ = (kv.2.Size : ℚ) * 100 / (totalSize (s'._languages.getD []) : ℚ)) ∧
      ((s'._languages.getD []).map (fun kv => kv.2.Prop_)).sum = 100) ∧
    (totalSize (s'._languages.getD []) = 0 → ∀ kv ∈ s'._languages.getD [], kv.2.Prop_ = 0) := by
  have hs := getStats_some s s' remote remote' hrun
  have hinit := initStats_config s
  have hzero := foldl_ingestRepo_languages (fun langs => ∀ kv ∈ langs, kv.2.Prop_ = 0)
    (initStats s).excludedLangs (fun langs e h => parseLangEdge_prop_zero _ langs e h)
    (processedRepos s remote.pages) (initStats s) rfl
    (by rw [hinit.2.2.2.2.2, hfresh]; intro kv hkv; cases hkv)
  generalize (processedRepos s remote.pages).foldl ingestRepo (initStats s) = st at hs hzero
  have hl : s'._languages = setProps st._languages := by
    rw [hs]
    rfl
  rw [hl]
  cases hm : st._languages with
  | none =>
    refine ⟨fun h => absurd h (by decide), fun _ kv hkv => ?_⟩
    cases hkv
  | some m =>
    rw [hm] at hzero
    simp only [Option.getD_some] at hzero
    rw [totalSize_setProps]
    unfold setProps
    simp only [Option.getD_some]
    constructor
    · intro hpos
      have hne : ((totalSize m : Int) : ℚ) ≠ 0 := by
        exact_mod_cast (ne_of_gt hpos)
      constructor
      · intro kv hkv
        obtain ⟨kv0, _, hkv0⟩ := List.mem_map.1 hkv
        rw [← hkv0]
        simp only [hpos, if_true]
      · simp only [hpos, if_true, List.map_map]
        have hfun : List.map ((fun kv : GoString × LangInfo => kv.2.Prop_) ∘
            fun kv : GoString × LangInfo =>
              (kv.1, { kv.2 with Prop_ := (kv.2.Size : ℚ) * 100 / (totalSize m : ℚ) })) m =
            List.map (fun kv => (kv.2.Size : ℚ) * 100 / (totalSize m : ℚ)) m :=
          List.map_congr_left (fun kv _ => rfl)
        rw [hfun, sum_shares]
        change ((totalSize m : Int) : ℚ) * 100 / ((totalSize m : Int) : ℚ) = 100
        rw [mul_comm, mul_div_assoc, div_self hne, mul_one]
    · intro hz kv hkv
      obtain ⟨kv0, hmem, hkv0⟩ := List.mem_map.1 hkv
      rw [← hkv0]
      simp only [hz, lt_irrefl, if_false]
      exact hzero kv0 hmem


/-- C6, a concrete case: 100 bytes of Go and 300 of Rust give the shares 25 and 75. -/
theorem language_shares_witness :
    snapDefault._languages = none ∧
    getStats snapDefault { pages := [finalPage [repoMix] []], requests := [] } =
      some (snapAfterMix,
        { pages := [], requests := [{ repoCursor := [], contribCursor := [] }] }) ∧
    ((0 < totalSize (snapAfterMix._languages.getD []) →
        (∀ kv ∈ snapAfterMix._languages.getD [],
          kv.2.Prop_ =
            (kv.2.Size : ℚ) * 100 / (totalSize (snapAfterMix._languages.getD []) : ℚ)) ∧
        ((snapAfterMix._languages.getD []).map (fun kv => kv.2.Prop_)).sum = 100) ∧
      (totalSize (snapAfterMix._languages.getD []) = 0 →
        ∀ kv ∈ snapAfterMix._languages.getD [], kv.2.Prop_ = 0)) :=
  have hrun : getStats snapDefault { pages := [finalPage [repoMix] []], requests := [] } =
      some (snapAfterMix,
        { pages := [], requests := [{ repoCursor := [], contribCursor := [] }] }) := by
    simp [snapDefault, snapAfterMix, repoMix, getStats, finalPage, NewSnapshot, statsLoop,
      ingestPage, pageRepos, ingestRepo, countRepo, GetListEnv, lastPage, setProps, totalSize,
      parseRepoLanguages, parseLangEdge, mapGet, mapSet, initStats, noNextPage, reposOverview,
      StringPtrOrNil, getViewerName]
    norm_num
  ⟨rfl, hrun, language_shares snapDefault snapAfterMix
    { pages := [finalPage [repoMix] []], requests := [] }
    { pages := [], requests := [{ repoCursor := [], contribCursor := [] }] } rfl hrun⟩

/-- C7 (the code departs from the claim). `GetContributions` stores 0 in the
cache before it queries and never stores the sum: the first call returns the
sum (5 here), the second call on the resulting snapshot returns 0. -/
theorem contributions_second_call_returns_zero :
    (GetContributions snapDefault contribRemote2024).map (fun r => r.1) = some 5 ∧
    ((GetContributions snapDefault contribRemote2024).bind
      (fun r => GetContributions r.2 contribRemote2024)).map (fun r => r.1) = some 0 := by
  refine ⟨by decide, by decide⟩

/-- C8 (the code departs from the claim). When no repository is retained,
`parseRepoLanguages` is never called, `_languages` stays `nil`, and every call of
`GetLanguages` runs `getStats` again: two calls send two queries, also after
`GetName` has already run the pass (three queries for the three calls). -/
theorem getLanguages_reruns_getStats_without_repos :
    (GetLanguages snapDefault remoteNoRepos).map (fun r => (r.1, r.2.2.requests.length)) =
      some (none, 1) ∧
    ((GetLanguages snapDefault remoteNoRepos).bind
      (fun r => GetLanguages r.2.1 r.2.2)).map (fun r => (r.1, r.2.2.requests.length)) =
      some (none, 2) ∧
    (((GetName snapDefault remoteNoRepos).bind
      (fun r => GetLanguages r.2.1 r.2.2)).bind
      (fun r => GetLanguages r.2.1 r.2.2)).map (fun r => r.2.2.requests.length) = some 3 := by
  refine ⟨by decide, by decide, by decide⟩

/-- C10. The loop of `getStats` ends exactly on the first response on which both
collections report no next page. (1) If the responses are `pre`, then `p`, then
`post`, where every response of `pre` has a `HasNextPage` flag true and both
flags of `p` are false, the pass returns, has sent one query for each response
of `pre` and one for `p`, and has left `post` untouched. (2) Whenever the pass
returns, the responses it has taken are such a `pre` and `p`: it never stops on
a response with a flag true. (3) When both collections hold `N ≥ 1` records and
the remote serves them 100 per page, the pass returns after exactly
`(N + 99) / 100` queries (the ceiling of `N / 100`), the first without cursors
and query `j` with the cursor after `100 * j` records for both collections. -/
theorem pagination_loop (s : Snapshot) :
    (∀ (pre post : List ReposOverviewQuery) (p : ReposOverviewQuery) (reqs : List QueryVars),
      (∀ q ∈ pre, q.Viewer.Repositories.PageInfo.HasNextPage = true ∨
        q.Viewer.RepositoriesContributedTo.PageInfo.HasNextPage = true) →
      p.Viewer.Repositories.PageInfo.HasNextPage = false →
      p.Viewer.RepositoriesContributedTo.PageInfo.HasNextPage = false →
      ∃ s' remote', getStats s { pages := pre ++ p :: post, requests := reqs } =
          some (s', remote') ∧
        remote'.pages = post ∧ remote'.requests.length = reqs.length + (pre.length + 1)) ∧
    (∀ (remote remote' : Remote) (s' : Snapshot), getStats s remote = some (s', remote') →
      ∃ pre p, remote.pages = pre ++ p :: remote'.pages ∧
        (∀ q ∈ pre, q.Viewer.Repositories.PageInfo.HasNextPage = true ∨
          q.Viewer.RepositoriesContributedTo.PageInfo.HasNextPage = true) ∧
        p.Viewer.Repositories.PageInfo.HasNextPage = false ∧
        p.Viewer.RepositoriesContributedTo.PageInfo.HasNextPage = false ∧
        remote'.requests.length = remote.requests.length + (pre.length + 1)) ∧
    (∀ (login name : GoString) (cursor : Nat → GoString)
      (owned contrib : List RepoWithLanguages) (N more : Nat),
      owned.length = N → contrib.length = N → 1 ≤ N →
      ∃ s' remote',
        getStats s
          { pages := servedResponses login name cursor owned contrib 0 ((N + 99) / 100 + more),
            requests := [] } = some (s', remote') ∧
        remote'.requests.length = (N + 99) / 100 ∧
        remote'.requests = { repoCursor := [], contribCursor := [] } ::
          (List.range' 1 ((N + 99) / 100 - 1)).map
            (fun j => { repoCursor := cursor (100 * j), contribCursor := cursor (100 * j) })) := by
  refine ⟨?_, ?_, ?_⟩
  · intro pre post p reqs hpre hp1 hp2
    have hc := consumedPages_append pre p post
      (fun q hq => (lastPage_eq_false q).2 (hpre q hq)) ((lastPage_eq_true p).2 ⟨hp1, hp2⟩)
    rw [getStats_eq]
    simp only [hc, Option.map_some']
    refine ⟨_, _, rfl, ?_, ?_⟩
    · simp
    · simp [loopRequests_length]
  · intro remote remote' s' hrun
    rw [getStats_eq] at hrun
    cases hc : consumedPages remote.pages with
    | none => simp [hc] at hrun
    | some ps =>
      simp only [hc, Option.map_some', Option.some.injEq, Prod.mk.injEq] at hrun
      obtain ⟨pre, p, h1, h2, h3, h4⟩ := consumedPages_some remote.pages ps hc
      rw [← hrun.2]
      refine ⟨pre, p, h2, fun q hq => (lastPage_eq_false q).1 (h3 q hq),
        ((lastPage_eq_true p).1 h4).1, ((lastPage_eq_true p).1 h4).2, ?_⟩
      simp [loopRequests_length, h1]
  · intro login name cursor owned contrib N more ho hc hN
    have hps := servedResponses_consumed login name cursor owned contrib N ho hc
      ((N + 99) / 100 + more) 0 (by omega) (by omega)
    rw [getStats_eq]
    simp only [hps, Option.map_some']
    refine ⟨_, _, rfl, ?_, ?_⟩
    · simp [loopRequests_length, servedResponses_length]
    · obtain ⟨a, ha⟩ : ∃ a, (N + 99) / 100 - 0 = a + 1 := ⟨(N + 99) / 100 - 1, by omega⟩
      have ha' : (N + 99) / 100 - 1 = a := by omega
      rw [ha, ha', servedResponses_requests]
      rfl


/-- C10, two concrete cases: a response with a next page, a final one and one
more give 2 queries and leave the third response; 250 records in both
collections give 3 queries. -/
theorem pagination_loop_witness :
    (∃ s' remote',
      getStats snapDefault
        { pages := [morePage] ++ finalPage [repoApp] [] :: [finalPage [] []], requests := [] } =
        some (s', remote') ∧
      remote'.pages = [finalPage [] []] ∧
      remote'.requests.length = ([] : List QueryVars).length + ([morePage].length + 1)) ∧
    (∃ s' remote',
      getStats snapDefault
        { pages := servedResponses "octocat".toList [] (fun n => (Nat.repr n).toList)
            (List.replicate 250 repoApp) (List.replicate 250 repoFork) 0
            ((250 + 99) / 100 + 2),
          requests := [] } = some (s', remote') ∧
      remote'.requests.length = (250 + 99) / 100 ∧
      remote'.requests = { repoCursor := [], contribCursor := [] } ::
        (List.range' 1 ((250 + 99) / 100 - 1)).map
          (fun j => { repoCursor := (Nat.repr (100 * j)).toList,
                      contribCursor := (Nat.repr (100 * j)).toList })) :=
  ⟨(pagination_loop snapDefault).1 [morePage] [finalPage [] []] (finalPage [repoApp] []) []
      (by decide) (by decide) (by decide),
    (pagination_loop snapDefault).2.2 "octocat".toList [] (fun n => (Nat.repr n).toList)
      (List.replicate 250 repoApp) (List.replicate 250 repoFork) 250 2
      (List.length_replicate 250 repoApp) (List.length_replicate 250 repoFork) (by decide)⟩

end snapshot

/-! ### The REST poller -/

namespace helpers

theorem restLoop_pending (client : Nat → HttpResult) (k : Nat) :
    ∀ attempts issued, k ≤ attempts →
      (∀ i, i < k → (client (issued + i)).pending = true) →
      restLoop true client attempts issued = restLoop true client (attempts - k) (issued + k) := by
  induction k with
  | zero =>
    intro attempts issued _ _
    rfl
  | succ k ih =>
    intro attempts issued hle hp
    obtain ⟨a, rfl⟩ : ∃ a, attempts = a + 1 := ⟨attempts - 1, by omega⟩
    have h0 : (client issued).pending = true := hp 0 (Nat.succ_pos k)
    have hrest : restLoop true client (a + 1) issued = restLoop true client a (issued + 1) := by
      rw [restLoop]
      cases hc : client issued with
      | transportError => simp
      | response status body readFails =>
        rw [hc] at h0
        simp only [HttpResult.pending, decide_eq_true_eq] at h0
        simp [h0]
    rw [hrest, ih a (issued + 1) (by omega)
      (fun i hi => by rw [Nat.add_assoc, Nat.add_comm 1 i]; exact hp (i + 1) (by omega))]
    congr 1
    · omega
    · omega

/-- C9. For a request that can be built, the outcome of `RunRestQuery` is fixed by
the first result of the client that is neither a transport error nor a 202,
within 60 attempts. If the first `k < 60` results are transport errors or 202s:
when result `k + 1` is a 200 whose body is read, exactly `k + 1` requests are
sent and the body is returned without error; when result `k + 1` has another
status, exactly `k + 1` requests are sent and the error `unexpected status` is
returned without a body. If the first 60 results are all transport errors or
202s, exactly 60 requests are sent and the error `too many 202 responses` is
returned without a body. -/
theorem runRestQuery_outcome (client : Nat → HttpResult) :
    (∀ k, k < 60 → (∀ i, i < k → (client i).pending = true) →
      (∀ body, client k = HttpResult.response 200 body false →
        RunRestQuery true client = { body := some body, err := none, issued := k + 1 }) ∧
      (∀ status body readFails, status ≠ 200 → status ≠ 202 →
        client k = HttpResult.response status body readFails →
        RunRestQuery true client =
          { body := none, err := some (RestError.unexpectedStatus status body),
            issued := k + 1 })) ∧
    ((∀ i, i < 60 → (client i).pending = true) →
      RunRestQuery true client =
        { body := none, err := some RestError.tooMany202, issued := 60 }) := by
  constructor
  · intro k hk hp
    have hstart : RunRestQuery true client = restLoop true client (60 - k) k := by
      unfold RunRestQuery
      rw [restLoop_pending client k 60 0 (by omega) (fun i hi => by rw [Nat.zero_add]; exact hp i hi),
        Nat.zero_add]
    obtain ⟨a, ha⟩ : ∃ a, 60 - k = a + 1 := ⟨60 - k - 1, by omega⟩
    rw [hstart, ha]
    constructor
    · intro body hc
      rw [restLoop]
      simp [hc]
    · intro status body readFails h200 h202 hc
      rw [restLoop]
      simp [hc, h200, h202]
  · intro hp
    unfold RunRestQuery
    rw [restLoop_pending client 60 60 0 (Nat.le_refl _)
      (fun i hi => by rw [Nat.zero_add]; exact hp i hi)]
    rfl

/-- C9, the case of the specification: three 202 responses, then a 200. -/
theorem runRestQuery_outcome_witness :
    RunRestQuery true clientReadyAtFourth =
      { body := some "[]".toList, err := none, issued := 3 + 1 } :=
  ((runRestQuery_outcome clientReadyAtFourth).1 3 (by decide)
    (fun i hi => by
      unfold clientReadyAtFourth
      simp [hi, HttpResult.pending])).1 "[]".toList (by decide)

end helpers

/-! ### The boolean flags -/

namespace helpers

theorem TrimSpace_decompose (value : GoString) :
    ∃ l r, value = l ++ TrimSpace value ++ r ∧ (∀ c ∈ l, isSpace c = true) ∧
      (∀ c ∈ r, isSpace c = true) := by
  refine ⟨value.takeWhile isSpace,
    ((value.dropWhile isSpace).reverse.takeWhile isSpace).reverse, ?_, ?_, ?_⟩
  · unfold TrimSpace
    rw [List.append_assoc, ← List.reverse_append, List.takeWhile_append_dropWhile,
      List.reverse_reverse, List.takeWhile_append_dropWhile]
  · intro c hc
    exact (List.mem_takeWhile_imp hc)
  · intro c hc
    exact (List.mem_takeWhile_imp (List.mem_reverse.1 hc))

theorem dropWhile_isSpace_append (l core : GoString) (hl : ∀ c ∈ l, isSpace c = true)
    (hcore : ∀ c, core.head? = some c → isSpace c = false) :
    (l ++ core).dropWhile isSpace = core := by
  rw [List.dropWhile_append_of_pos hl]
  cases core with
  | nil => rfl
  | cons c cs =>
    rw [List.dropWhile_cons, hcore c rfl]
    rfl

theorem TrimSpace_of_decompose (l core r : GoString) (hl : ∀ c ∈ l, isSpace c = true)
    (hr : ∀ c ∈ r, isSpace c = true) (hcore : ∀ c ∈ core, isSpace c = false) :
    TrimSpace (l ++ core ++ r) = core := by
  unfold TrimSpace
  cases core with
  | nil =>
    have hall : ∀ c ∈ l ++ [] ++ r, isSpace c = true := by
      intro c hc
      simp only [List.append_nil, List.mem_append] at hc
      rcases hc with hc | hc
      · exact hl c hc
      · exact hr c hc
    rw [List.dropWhile_eq_nil_iff.2 hall]
    rfl
  | cons c cs =>
    have h1 : (l ++ (c :: cs) ++ r).dropWhile isSpace = (c :: cs) ++ r := by
      rw [List.append_assoc]
      apply dropWhile_isSpace_append l _ hl
      intro x hx
      simp only [List.cons_append, List.head?_cons, Option.some.injEq] at hx
      rw [← hx]
      exact hcore c (List.mem_cons_self _ _)
    rw [h1, List.reverse_append]
    have h2 : (r.reverse ++ (c :: cs).reverse).dropWhile isSpace = (c :: cs).reverse := by
      apply dropWhile_isSpace_append
      · intro x hx
        exact hr x (List.mem_reverse.1 hx)
      · intro x hx
        apply hcore x
        apply List.mem_reverse.1
        exact List.mem_of_mem_head? hx
    rw [h2, List.reverse_reverse]

theorem isSpace_of_ToLower_false (core : GoString) (h : ToLower core = "false".toList) :
    ∀ c ∈ core, isSpace c = false := by
  intro c hc
  have hmem : unicodeToLower c ∈ ToLower core := List.mem_map_of_mem _ hc
  rw [h] at hmem
  rw [← isSpace_toLower]
  revert hmem
  generalize unicodeToLower c = d
  intro hd
  have : d = 'f' ∨ d = 'a' ∨ d = 'l' ∨ d = 's' ∨ d = 'e' := by
    simpa using hd
  rcases this with h | h | h | h | h <;> rw [h] <;> decide

/-- C12, as amended. When the variable is unset, `GetBooleanEnv` gives the default
value. When it is set to a value, the result is true for every value except
those that equal `false` ignoring letter case once the white space around them
is trimmed: the result is false exactly when the value is `false`, in any
letter case, between two (possibly empty) runs of white space. So the empty
string, `0` and `no` give true. -/
theorem getBooleanEnv_spec (value : GoString) (defaultValue : Bool) :
    GetBooleanEnv none defaultValue = defaultValue ∧
    (GetBooleanEnv (some value) defaultValue = true ↔
      ToLower (TrimSpace value) ≠ ToLower "false".toList) ∧
    (GetBooleanEnv (some value) defaultValue = false ↔
      ∃ l core r, value = l ++ core ++ r ∧ (∀ c ∈ l, isSpace c = true) ∧
        (∀ c ∈ r, isSpace c = true) ∧ ToLower core = ToLower "false".toList) ∧
    GetBooleanEnv (some []) defaultValue = true ∧
    GetBooleanEnv (some "0".toList) defaultValue = true ∧
    GetBooleanEnv (some "no".toList) defaultValue = true ∧
    GetBooleanEnv (some "False".toList) defaultValue = false := by
  have hf : ToLower "false".toList = "false".toList := by decide
  have hex : ∀ v : GoString, decide (ToLower (TrimSpace v) ≠ "false".toList) =
      GetBooleanEnv (some v) defaultValue := fun _ => rfl
  refine ⟨rfl, ?_, ?_, ?_, ?_, ?_, ?_⟩
  rotate_left 2
  · rw [← hex]
    decide
  · rw [← hex]
    decide
  · rw [← hex]
    decide
  · rw [← hex]
    decide
  · unfold GetBooleanEnv
    rw [hf]
    simp only [decide_eq_true_eq]
  · unfold GetBooleanEnv
    rw [hf]
    simp only [decide_eq_false_iff_not, not_not, ne_eq]
    constructor
    · intro h
      obtain ⟨l, r, hv, hl, hr⟩ := TrimSpace_decompose value
      exact ⟨l, TrimSpace value, r, hv, hl, hr, h⟩
    · rintro ⟨l, core, r, hv, hl, hr, hcore⟩
      rw [hv, TrimSpace_of_decompose l core r hl hr (isSpace_of_ToLower_false core hcore)]
      exact hcore

/-- C12 as stated fails. The value ` false` (with a leading space) does not equal
`false` ignoring letter case, and `GetBooleanEnv` gives false for it: the value
is trimmed before it is compared. -/
theorem getBooleanEnv_counterexample :
    ToLower " false".toList ≠ ToLower "false".toList ∧
    GetBooleanEnv (some " false".toList) true = false := by
  refine ⟨by decide, by decide⟩

end helpers

/-! ### Totals, views and lines changed -/

namespace snapshot

open helpers

theorem ingestRepo_views (st : Snapshot) (r : RepoWithLanguages) :
    (ingestRepo st r)._views = st._views ∧
      (ingestRepo st r)._linesChanged = st._linesChanged := by
  unfold ingestRepo countRepo parseRepoLanguages
  dsimp only
  split_ifs <;> exact ⟨rfl, rfl⟩

theorem foldl_ingestRepo_views (rs : List RepoWithLanguages) (st : Snapshot) :
    (rs.foldl ingestRepo st)._views = st._views ∧
      (rs.foldl ingestRepo st)._linesChanged = st._linesChanged := by
  induction rs generalizing st with
  | nil => exact ⟨rfl, rfl⟩
  | cons r rs ih =>
    obtain ⟨h1, h2⟩ := ih (ingestRepo st r)
    obtain ⟨g1, g2⟩ := ingestRepo_views st r
    exact ⟨h1.trans g1, h2.trans g2⟩

theorem getStats_views (s s' : Snapshot) (remote remote' : Remote)
    (h : getStats s remote = some (s', remote')) :
    s'._views = s._views ∧ s'._linesChanged = s._linesChanged := by
  have hs := getStats_some s s' remote remote' h
  have hf := foldl_ingestRepo_views (processedRepos s remote.pages) (initStats s)
  have hi : (initStats s)._views = s._views ∧ (initStats s)._linesChanged = s._linesChanged := by
    unfold initStats
    dsimp only
    split_ifs <;> exact ⟨rfl, rfl⟩
  rw [hs]
  exact ⟨hf.1.trans hi.1, hf.2.trans hi.2⟩

/-- C13. After `getStats` on a fresh snapshot (no star or fork total yet) that
returns, `stargazers()` is the sum of the star counts and `forks()` is the sum
of the fork counts of exactly the repositories stored in `repositories()`, a
star count being a count, never negative. Whatever the star counts are,
`stargazers()` is the sum of those greater than zero. -/
theorem totals_agree_with_mapping (s s' : Snapshot) (remote remote' : Remote)
    (hstars : s._stargazers = none) (hforks : s._forks = none)
    (hrun : getStats s remote = some (s', remote')) :
    ((∀ kv ∈ s'._repos.getD [], 0 ≤ kv.2.Stargazers.TotalCount) →
      s'._stargazers =
        some (((s'._repos.getD []).map (fun kv => kv.2.Stargazers.TotalCount)).sum)) ∧
    s'._forks = some (((s'._repos.getD []).map (fun kv => kv.2.ForkCount)).sum) ∧
    s'._stargazers =
      some (((s'._repos.getD []).map (fun kv => max kv.2.Stargazers.TotalCount 0)).sum) := by
  obtain ⟨h1, h2, _⟩ := getStats_totals s s' remote remote' hrun
  rw [hstars, Option.getD_none, zero_add] at h1
  rw [hforks, Option.getD_none, zero_add] at h2
  refine ⟨?_, h2, h1⟩
  intro hpos
  rw [h1, starTotal_of_nonneg _ hpos]
  rfl

/-- C13, a concrete case: after the pass on `octocat/app` and `octocat/mix`, the
totals are the 5 + 1 stars and the 2 + 0 forks of the two stored repositories;
the 7 stars and the fork of the later record of `octocat/app` are in no total. -/
theorem totals_agree_with_mapping_witness :
    snapExternal._stargazers = none ∧ snapExternal._forks = none ∧
    getStats snapExternal
      { pages := [finalPage [repoApp, repoMix] [repoAppLater]], requests := [] } =
      some (snapAfterAppMix,
        { pages := [], requests := [{ repoCursor := [], contribCursor := [] }] }) ∧
    (∀ kv ∈ snapAfterAppMix._repos.getD [], 0 ≤ kv.2.Stargazers.TotalCount) ∧
    snapAfterAppMix._stargazers =
      some (((snapAfterAppMix._repos.getD []).map (fun kv => kv.2.Stargazers.TotalCount)).sum) ∧
    snapAfterAppMix._forks =
      some (((snapAfterAppMix._repos.getD []).map (fun kv => kv.2.ForkCount)).sum) ∧
    ((snapAfterAppMix._repos.getD []).map (fun kv => kv.2.Stargazers.TotalCount)).sum = 6 ∧
    ((snapAfterAppMix._repos.getD []).map (fun kv => kv.2.ForkCount)).sum = 2 :=
  have hrun : getStats snapExternal
      { pages := [finalPage [repoApp, repoMix] [repoAppLater]], requests := [] } =
      some (snapAfterAppMix,
        { pages := [], requests := [{ repoCursor := [], contribCursor := [] }] }) := by
    have hloop : statsLoop (initStats snapExternal) [] [] []
        [finalPage [repoApp, repoMix] [repoAppLater]] =
        some ({ snapAfterAppMix with
            _languages := some
              [("Go".toList,
                  { Size := 200, Occurrences := 2, Colour := "#000000".toList, Prop_ := 0 }),
               ("Rust".toList,
                  { Size := 300, Occurrences := 1, Colour := "#dea584".toList, Prop_ := 0 })] },
          { pages := [], requests := [{ repoCursor := [], contribCursor := [] }] }) := by
      decide
    unfold getStats
    dsimp only
    rw [hloop]
    simp [snapAfterAppMix, setProps, totalSize]
    norm_num
  have hthm := totals_agree_with_mapping snapExternal snapAfterAppMix
    { pages := [finalPage [repoApp, repoMix] [repoAppLater]], requests := [] }
    { pages := [], requests := [{ repoCursor := [], contribCursor := [] }] } rfl rfl hrun
  ⟨rfl, rfl, hrun, by decide, hthm.1 (by decide), hthm.2.1, by decide, by decide⟩

/-- C14. Let the repository mapping not be computed yet (`nil`). `GetViews`, when it
has no cached value, requests nothing, returns 0 and caches 0; so does
`GetLinesChanged`. Neither runs the repository pass. After a later `getStats`
that fills the mapping, both still return the cached 0 and request nothing,
whatever the traffic endpoint and the commit histories answer. -/
theorem views_and_lines_before_pass (s : Snapshot) (hrepos : s._repos = none) :
    (s._views = none → ∀ (client : GoString → ViewsResult) (sent : List GoString),
      GetViews s client sent = (0, { s with _views := some 0 }, sent)) ∧
    (s._linesChanged = none → ∀ commits : CommitRemote,
      GetLinesChanged s commits =
        some (0, { s with _linesChanged := some (0, 0) }, commits)) ∧
    (∀ (remote remote' : Remote) (s2 : Snapshot),
      getStats { s with _views := some 0 } remote = some (s2, remote') →
      ∀ (client : GoString → ViewsResult) (sent : List GoString),
        GetViews s2 client sent = (0, s2, sent)) ∧
    (∀ (remote remote' : Remote) (s2 : Snapshot),
      getStats { s with _linesChanged := some (0, 0) } remote = some (s2, remote') →
      ∀ commits : CommitRemote, GetLinesChanged s2 commits = some (0, s2, commits)) := by
  refine ⟨?_, ?_, ?_, ?_⟩
  · intro hv client sent
    unfold GetViews
    rw [hv, hrepos]
    rfl
  · intro hl commits
    unfold GetLinesChanged
    rw [hl, hrepos]
    rfl
  · intro remote remote' s2 hrun client sent
    have h := (getStats_views _ s2 remote remote' hrun).1
    unfold GetViews
    rw [h]
  · intro remote remote' s2 hrun commits
    have h := (getStats_views _ s2 remote remote' hrun).2
    unfold GetLinesChanged
    rw [h]
    rfl

/-- C14, a concrete case: on the fresh default snapshot both calls return 0 without
a request; after the pass has stored `octocat/app`, `GetViews` still returns 0
from a traffic endpoint that reports 1000 views for every repository. -/
theorem views_and_lines_before_pass_witness :
    snapDefault._repos = none ∧
    GetViews snapDefault (fun _ => ViewsResult.count 1000) [] =
      (0, { snapDefault with _views := some 0 }, []) ∧
    GetLinesChanged snapDefault { pages := [], requests := [] } =
      some (0, { snapDefault with _linesChanged := some (0, 0) },
        { pages := [], requests := [] }) ∧
    (∀ (remote remote' : Remote) (s2 : Snapshot),
      getStats { snapDefault with _views := some 0 } remote = some (s2, remote') →
      ∀ (client : GoString → ViewsResult) (sent : List GoString),
        GetViews s2 client sent = (0, s2, sent)) :=
  ⟨rfl,
    (views_and_lines_before_pass snapDefault rfl).1 rfl (fun _ => ViewsResult.count 1000) [],
    (views_and_lines_before_pass snapDefault rfl).2.1 rfl { pages := [], requests := [] },
    (views_and_lines_before_pass snapDefault rfl).2.2.1⟩

end snapshot

/-! ### The overview card -/

namespace main

open helpers

/-! #### Occurrences and the first replacement -/

theorem placeholder_ne_nil : ∀ i, i < 7 → placeholder i ≠ [] := by decide

theorem tokenize_skip (x : GoString) :
    ∀ (skip : Nat) (rest : GoString), x.length = skip →
      tokenize skip (x ++ rest) = tokenize 0 rest := by
  induction x with
  | nil =>
    intro skip rest h
    rw [← h]
    rfl
  | cons c x ih =>
    intro skip rest h
    rw [← h, List.length_cons, List.cons_append, tokenize]
    exact ih x.length rest rfl

theorem tokenize_cons_none (c : Char) (cs : GoString) (h : matchAt (c :: cs) = none) :
    tokenize 0 (c :: cs) = Tok.chr c :: tokenize 0 cs := by
  rw [tokenize, h]

theorem tokenize_placeholder (i : Nat) (rest : GoString) (hi : i < 7)
    (h : matchAt (placeholder i ++ rest) = some i) :
    tokenize 0 (placeholder i ++ rest) = Tok.ph i :: tokenize 0 rest := by
  cases hp : placeholder i with
  | nil => exact absurd hp (placeholder_ne_nil i hi)
  | cons c p =>
    rw [hp] at h
    rw [List.cons_append] at h ⊢
    rw [tokenize, h]
    simp only [hp, List.length_cons, Nat.add_sub_cancel]
    rw [tokenize_skip p p.length rest rfl]

/-- The meaning of `substituteAll`: a placeholder at the start of the text is
replaced by its value, a character at which no placeholder starts is kept, and
the rest of the text is treated in the same way. -/
theorem substituteAll_unfold (value : Nat → GoString) :
    substituteAll value [] = [] ∧
    (∀ c cs, matchAt (c :: cs) = none →
      substituteAll value (c :: cs) = c :: substituteAll value cs) ∧
    (∀ i rest, i < 7 → matchAt (placeholder i ++ rest) = some i →
      substituteAll value (placeholder i ++ rest) = value i ++ substituteAll value rest) := by
  refine ⟨rfl, ?_, ?_⟩
  · intro c cs h
    unfold substituteAll
    rw [tokenize_cons_none c cs h]
    rfl
  · intro i rest hi h
    unfold substituteAll
    rw [tokenize_placeholder i rest hi h]
    rfl

/-! #### Placeholders do not overlap -/

end main
